import Mathlib

/-!
# TON wallet generator: seed ingestion, key derivation, configuration

A shallow embedding of the Go packages `internal/ui`, `internal/cli` and
`internal/wallet`, and of the copies of their functions in the top-level
`main.go`.

* A Go `string` is modelled as the list of its Unicode code points
  (`GoString`); the model covers strings that are valid UTF-8.
* A `*bufio.Scanner` is modelled by the list of lines it has still to
  deliver; `scanner.Scan()` returning `false` is the empty list.  Every
  function that reads from the scanner returns the remaining lines next to
  its result.
* Printing to the terminal is not modelled.
-/

namespace TonWallet

/-! ## Strings -/

/-- A Go string, as the sequence of its code points. -/
abbrev GoString := List Char

/-- Go `unicode.IsSpace`: the code points with the Unicode White_Space
property. -/
def isSpace (c : Char) : Bool :=
  (9 ≤ c.toNat && c.toNat ≤ 13) || c.toNat == 32 || c.toNat == 0x85 || c.toNat == 0xA0 ||
  c.toNat == 0x1680 || (0x2000 ≤ c.toNat && c.toNat ≤ 0x200A) || c.toNat == 0x2028 ||
  c.toNat == 0x2029 || c.toNat == 0x202F || c.toNat == 0x205F || c.toNat == 0x3000

/-- Go `unicode.ToLower`: code points up to `MaxASCII` are handled by the
explicit `'A'..'Z'` test, every other code point is looked up in the Unicode
case tables.  The tables are not part of the repository; they are the
parameter `caseTable` (the lower-case mapping of a code point above 127). -/
def toLowerRune (caseTable : Char → Char) (r : Char) : Char :=
  if r.toNat ≤ 127 then
    if 65 ≤ r.toNat ∧ r.toNat ≤ 90 then Char.ofNat (r.toNat + 32) else r
  else caseTable r

/-- Go `strings.ToLower`: every code point mapped by `unicode.ToLower`. -/
def ToLower (caseTable : Char → Char) (s : GoString) : GoString :=
  s.map (toLowerRune caseTable)

/-- Go `strings.TrimSpace`: leading and trailing white space removed. -/
def TrimSpace (s : GoString) : GoString :=
  ((s.dropWhile isSpace).reverse.dropWhile isSpace).reverse

/-- Go `strings.ReplaceAll(s, old, new)` for one-character `old` and `new`,
the only way the program calls it. -/
def ReplaceAll (s : GoString) (old new : Char) : GoString :=
  s.map (fun c => if c = old then new else c)

/-- The scan of `strings.Fields`: `cur` is the field being read (empty when
the scan is between fields). -/
def fieldsFrom : GoString → GoString → List GoString
  | [], cur => if cur = [] then [] else [cur]
  | c :: cs, cur =>
    if isSpace c then
      if cur = [] then fieldsFrom cs [] else cur :: fieldsFrom cs []
    else fieldsFrom cs (cur ++ [c])

/-- Go `strings.Fields`: the maximal runs of non-space code points. -/
def Fields (s : GoString) : List GoString := fieldsFrom s []

/-- Go `strings.Join`. -/
def Join : List GoString → GoString → GoString
  | [], _ => []
  | [a], _ => a
  | a :: b :: rest, sep => a ++ sep ++ Join (b :: rest) sep

/-! ## Errors -/

/-- The error kinds of `strconv.ParseUint`. -/
inductive NumErrKind
  | ErrSyntax
  | ErrRange
  deriving DecidableEq, Repr

/-- Go `*strconv.NumError`: the failing function, the offending text, the kind. -/
structure NumError where
  Func : GoString
  Num : GoString
  Err : NumErrKind
  deriving DecidableEq, Repr

/-- A Go `error` made by `fmt.Errorf`: `errorf msg` carries the rendered
message; `errorfNum pre e` is `fmt.Errorf(pre + "%v", e)` for a
`strconv` error `e`, kept structured; `errorfWrap pre inner` is
`fmt.Errorf(pre + "%w", inner)`, an error that wraps the error `inner`. -/
inductive GoError
  | errorf (msg : GoString)
  | errorfNum (pre : GoString) (e : NumError)
  | errorfWrap (pre : GoString) (inner : GoError)
  deriving DecidableEq, Repr

/-- The `%d` rendering of a natural number. -/
def fmtNat (n : Nat) : GoString := Nat.toDigits 10 n

/-! ## The interactive seed reader (`internal/ui/interactive.go`) -/

/-- The scanner: the lines not yet read. -/
abbrev Scanner := List GoString

/-- The two variables of `readMultiLineSeed`. -/
structure ReaderState where
  allWords : List GoString
  emptyLineCount : Nat
  deriving DecidableEq, Repr

/-- The four `break` statements of the loop of `readMultiLineSeed`. -/
inductive BreakSite
  | eofWithWords
  | twoEmptyLines
  | emptyLineAfter24
  | reached24
  deriving DecidableEq, Repr

/-- How the loop of `readMultiLineSeed` is left: by one of its `break`s, with
the variables as they stand, or by `return nil, err`. -/
inductive LoopExit
  | brk (site : BreakSite) (st : ReaderState)
  | ret (err : GoError)
  deriving DecidableEq, Repr

/-- The outcome of one pass through the loop body. -/
inductive Control
  | next (st : ReaderState)
  | exit (e : LoopExit)
  deriving DecidableEq, Repr

/-- The inner loop `for _, word := range words`. -/
def appendWords (caseTable : Char → Char) (allWords words : List GoString) : List GoString :=
  words.foldl
    (fun acc word =>
      let word := ToLower caseTable (TrimSpace word)
      if word ≠ [] then acc ++ [word] else acc)
    allWords

/-- The five `strings.ReplaceAll` calls on a line. -/
def replaceSeparators (line : GoString) : GoString :=
  ReplaceAll (ReplaceAll (ReplaceAll (ReplaceAll (ReplaceAll line ',' ' ') '\t' ' ') ';' ' ')
    '|' ' ') '.' ' '

/-- The loop body when `scanner.Scan()` returned `false`. -/
def scanFailed (st : ReaderState) : LoopExit :=
  if st.allWords.length > 0 then .brk .eofWithWords st
  else .ret (.errorf "failed to read seed phrase".toList)

/-- The loop body when `scanner.Scan()` delivered `line`. -/
def loopBody (caseTable : Char → Char) (st : ReaderState) (line : GoString) : Control :=
  if TrimSpace line = [] then
    let emptyLineCount := st.emptyLineCount + 1
    if st.allWords.length > 0 ∧ emptyLineCount ≥ 2 then
      .exit (.brk .twoEmptyLines ⟨st.allWords, emptyLineCount⟩)
    else if st.allWords.length ≥ 24 ∧ emptyLineCount ≥ 1 then
      .exit (.brk .emptyLineAfter24 ⟨st.allWords, emptyLineCount⟩)
    else .next ⟨st.allWords, emptyLineCount⟩
  else
    let words := Fields (replaceSeparators line)
    let allWords := appendWords caseTable st.allWords words
    if allWords.length ≥ 24 then .exit (.brk .reached24 ⟨allWords, 0⟩)
    else .next ⟨allWords, 0⟩

/-- The `for` loop of `readMultiLineSeed`, with the lines left unread. -/
def readLoop (caseTable : Char → Char) : Scanner → ReaderState → LoopExit × Scanner
  | [], st => (scanFailed st, [])
  | line :: rest, st =>
    match loopBody caseTable st line with
    | .next st' => readLoop caseTable rest st'
    | .exit e => (e, rest)

/-- Go `readMultiLineSeed`: the words read (at most 24) or the error, and the
lines left unread. -/
def readMultiLineSeed (caseTable : Char → Char) (scanner : Scanner) :
    Except GoError (List GoString) × Scanner :=
  match readLoop caseTable scanner ⟨[], 0⟩ with
  | (.ret err, rest) => (.error err, rest)
  | (.brk _ st, rest) =>
    (.ok (if st.allWords.length > 24 then st.allWords.take 24 else st.allWords), rest)

/-- The seed prompt of `promptForSeed`.  `newSeed` is what the external
generator `tonwallet.NewSeed()` returns in this run. -/
def promptForSeed (caseTable : Char → Char) (newSeed : List GoString) (scanner : Scanner) :
    Except GoError (List GoString) × Scanner :=
  match scanner with
  | [] => (.error (.errorf "failed to read input".toList), [])
  | answer :: scanner =>
    let generateNew : Bool := ToLower caseTable (TrimSpace answer) = "y".toList
    if generateNew then (.ok newSeed, scanner)
    else
      match readMultiLineSeed caseTable scanner with
      | (.error err, scanner) => (.error err, scanner)
      | (.ok seed, scanner) =>
        if seed.length ≠ 24 then
          (.error (.errorf ("expected 24 words, got ".toList ++ fmtNat seed.length)), scanner)
        else (.ok seed, scanner)

/-! ## Networks, versions, subwallets -/

/-- Library constant `tonwallet.MainnetGlobalID`. -/
def MainnetGlobalID : Int := -239

/-- Library constant `tonwallet.TestnetGlobalID`. -/
def TestnetGlobalID : Int := -3

/-- Library constant `tonwallet.DefaultSubwallet`. -/
def DefaultSubwallet : Nat := 698983191

/-- The values of the library interface `tonwallet.VersionConfig` the program
builds: the four plain version tags and the two V5 configurations, which carry
a network global id (their other fields keep the zero value). -/
inductive VersionConfig
  | V3R1
  | V3R2
  | V4R1
  | V4R2
  | ConfigV5R1Beta (NetworkGlobalID : Int)
  | ConfigV5R1Final (NetworkGlobalID : Int)
  deriving DecidableEq, Repr

/-- Go `wallet.Config`. -/
structure Config where
  Seed : List GoString
  NetworkGlobalID : Int
  NetworkName : GoString
  Version : VersionConfig
  VersionName : GoString
  SubwalletID : Nat
  deriving DecidableEq, Repr

/-- Go `promptForNetwork`. -/
def promptForNetwork (scanner : Scanner) : Except GoError (Int × GoString) × Scanner :=
  match scanner with
  | [] => (.error (.errorf "failed to read network choice".toList), [])
  | line :: scanner =>
    let choice := TrimSpace line
    if choice = "1".toList then (.ok (MainnetGlobalID, "Mainnet".toList), scanner)
    else if choice = "2".toList then (.ok (TestnetGlobalID, "Testnet".toList), scanner)
    else (.ok (MainnetGlobalID, "Mainnet".toList), scanner)

/-- Go `promptForVersion`: the version, its name and the effective choice. -/
def promptForVersion (scanner : Scanner) (networkID : Int) :
    Except GoError (VersionConfig × GoString × GoString) × Scanner :=
  match scanner with
  | [] => (.error (.errorf "failed to read version choice".toList), [])
  | line :: scanner =>
    let choice := TrimSpace line
    if choice = "1".toList then (.ok (.V3R1, "V3R1".toList, choice), scanner)
    else if choice = "2".toList then (.ok (.V3R2, "V3R2".toList, choice), scanner)
    else if choice = "3".toList then (.ok (.V4R1, "V4R1".toList, choice), scanner)
    else if choice = "4".toList then (.ok (.V4R2, "V4R2".toList, choice), scanner)
    else if choice = "5".toList then
      (.ok (.ConfigV5R1Beta networkID, "V5R1 Beta".toList, choice), scanner)
    else if choice = "6".toList then
      (.ok (.ConfigV5R1Final networkID, "V5R1 Final".toList, choice), scanner)
    else (.ok (.V4R2, "V4R2".toList, "4".toList), scanner)

/-- The digit loop of `strconv.ParseUint` for base 10 and bit size 32: `s0` is
the whole input (for the error), `n` the value read so far.  A character that
is not a decimal digit is a syntax error; a value above `2^32 - 1` is a range
error, reported as soon as it is reached. -/
def parseUintLoop (s0 : GoString) : GoString → Nat → Except NumError Nat
  | [], n => .ok n
  | c :: cs, n =>
    if 48 ≤ c.toNat ∧ c.toNat ≤ 57 then
      let n1 := n * 10 + (c.toNat - 48)
      if n1 > 2 ^ 32 - 1 then .error ⟨"ParseUint".toList, s0, .ErrRange⟩
      else parseUintLoop s0 cs n1
    else .error ⟨"ParseUint".toList, s0, .ErrSyntax⟩

/-- Go `strconv.ParseUint(s, 10, 32)`. -/
def ParseUint (s : GoString) : Except NumError Nat :=
  if s = [] then .error ⟨"ParseUint".toList, s, .ErrSyntax⟩
  else parseUintLoop s s 0

/-- Go `promptForSubwallet`. -/
def promptForSubwallet (scanner : Scanner) ( isV5 : Bool) : Except GoError Nat × Scanner :=
  let defaultSubwallet : Nat := if isV5 then 0 else DefaultSubwallet % 2 ^ 32
  match scanner with
  | [] => (.error (.errorf "failed to read subwallet ID".toList), [])
  | line :: scanner =>
    let input := TrimSpace line
    if input = [] then (.ok defaultSubwallet, scanner)
    else
      match ParseUint input with
      | .error err => (.error (.errorfNum "invalid subwallet ID: ".toList err), scanner)
      | .ok parsed => (.ok (parsed % 2 ^ 32), scanner)

/-- Go `ui.CollectWalletConfig`: the four prompts in order, on one scanner. -/
def CollectWalletConfig (caseTable : Char → Char) (newSeed : List GoString) (scanner : Scanner) :
    Except GoError Config :=
  match promptForSeed caseTable newSeed scanner with
  | (.error err, _) => .error err
  | (.ok seed, scanner) =>
    match promptForNetwork scanner with
    | (.error err, _) => .error err
    | (.ok (networkID, networkName), scanner) =>
      match promptForVersion scanner networkID with
      | (.error err, _) => .error err
      | (.ok (version, versionName, versionChoice), scanner) =>
        let isV5 : Bool := versionChoice = "5".toList || versionChoice = "6".toList
        match promptForSubwallet scanner isV5 with
        | (.error err, _) => .error err
        | (.ok subwalletID, _) =>
          .ok ⟨seed, networkID, networkName, version, versionName, subwalletID⟩

/-! ## Direct mode (`internal/cli`) -/

/-- Go `cli.Flags`; `Subwallet` is a Go `int`, `-1` when the flag is absent. -/
structure Flags where
  Generate : Bool
  Seed : GoString
  Network : GoString
  Version : GoString
  Subwallet : Int
  SimpleMode : Bool
  deriving DecidableEq, Repr

/-- The network part of `BuildConfig`. -/
def resolveNetwork (caseTable : Char → Char) (flags : Flags) : Except GoError (Int × GoString) :=
  if flags.Network ≠ [] then
    let n := ToLower caseTable flags.Network
    if n = "mainnet".toList ∨ n = "main".toList then .ok (MainnetGlobalID, "Mainnet".toList)
    else if n = "testnet".toList ∨ n = "test".toList then .ok (TestnetGlobalID, "Testnet".toList)
    else .error (.errorf ("invalid network: ".toList ++ flags.Network ++
      " (use mainnet or testnet)".toList))
  else .ok (MainnetGlobalID, "Mainnet".toList)

/-- The version part of `BuildConfig`: the version, its name, and `isV5`. -/
def resolveVersion (caseTable : Char → Char) (flags : Flags) (networkID : Int) :
    Except GoError (VersionConfig × GoString × Bool) :=
  let versionStr := if flags.Version ≠ [] then ToLower caseTable flags.Version else "v4r2".toList
  if versionStr = "v3r1".toList then .ok (.V3R1, "V3R1".toList, false)
  else if versionStr = "v3r2".toList then .ok (.V3R2, "V3R2".toList, false)
  else if versionStr = "v4r1".toList then .ok (.V4R1, "V4R1".toList, false)
  else if versionStr = "v4r2".toList then .ok (.V4R2, "V4R2".toList, false)
  else if versionStr = "v5r1beta".toList ∨ versionStr = "v5beta".toList then
    .ok (.ConfigV5R1Beta networkID, "V5R1 Beta".toList, true)
  else if versionStr = "v5r1final".toList ∨ versionStr = "v5r1".toList ∨
      versionStr = "v5".toList then
    .ok (.ConfigV5R1Final networkID, "V5R1 Final".toList, true)
  else .error (.errorf ("invalid version: ".toList ++ flags.Version))

/-- The subwallet part of `BuildConfig`; `uint32(x)` keeps `x` modulo `2^32`. -/
def resolveSubwallet (flags : Flags) ( isV5 : Bool) : Nat :=
  let subwalletID : Nat := if isV5 then 0 else DefaultSubwallet % 2 ^ 32
  if flags.Subwallet ≥ 0 then (flags.Subwallet % 2 ^ 32).toNat else subwalletID

/-- Go `cli.BuildConfig`.  `newSeed` is what `tonwallet.NewSeed()` returns in
this run. -/
def BuildConfig (caseTable : Char → Char) (newSeed : List GoString) (flags : Flags) :
    Except GoError Config :=
  let seedResult : Except GoError (List GoString) :=
    if flags.Generate then .ok newSeed
    else if flags.Seed ≠ [] then
      let seed := Fields flags.Seed
      if seed.length ≠ 24 then
        .error (.errorf ("seed phrase must contain exactly 24 words, got ".toList ++
          fmtNat seed.length))
      else .ok seed
    else .error (.errorf "either --generate or --seed must be provided".toList)
  match seedResult with
  | .error err => .error err
  | .ok seed =>
    match resolveNetwork caseTable flags with
    | .error err => .error err
    | .ok (networkID, networkName) =>
      match resolveVersion caseTable flags networkID with
      | .error err => .error err
      | .ok (walletVersion, versionName, isV5) =>
        .ok ⟨seed, networkID, networkName, walletVersion, versionName,
          resolveSubwallet flags isV5⟩

/-! ## Key derivation (`internal/wallet/keygen.go`) -/

/-- A Go `[]byte`. -/
abbrev Bytes := List UInt8

/-- The conversion `[]byte(s)`: the UTF-8 encoding of the string. -/
def toBytes (s : GoString) : Bytes := s.flatMap String.utf8EncodeChar

/-- The library functions the derivation calls, with the part of their
documented contract it relies on: `crypto/hmac` over `crypto/sha512`,
`pbkdf2.Key` over `sha512.New` (which returns `keyLen` bytes), and
`ed25519.NewKeyFromSeed` (which panics, here `none`, unless the seed has 32
bytes and otherwise returns a 64-byte private key). -/
structure CryptoLib where
  hmacSHA512 : Bytes → Bytes → Bytes
  pbkdf2SHA512 : Bytes → Bytes → Nat → Nat → Bytes
  ed25519NewKeyFromSeed : Bytes → Option Bytes
  pbkdf2_length : ∀ password salt iter keyLen,
    (pbkdf2SHA512 password salt iter keyLen).length = keyLen
  newKey_length : ∀ seed, seed.length = 32 →
    ∃ key, ed25519NewKeyFromSeed seed = some key ∧ key.length = 64

/-- A keyed hash under construction, Go `hmac.New(sha512.New, key)`: the key and
the bytes written so far. -/
structure HMAC where
  key : Bytes
  written : Bytes
  deriving DecidableEq, Repr

/-- Go `hmac.New(sha512.New, key)`. -/
def hmacNew (key : Bytes) : HMAC := ⟨key, []⟩

/-- Go `mac.Write(p)`. -/
def HMAC.Write (mac : HMAC) (p : Bytes) : HMAC := ⟨mac.key, mac.written ++ p⟩

/-- Go `mac.Sum(b)`: the digest of what was written, appended to `b`. -/
def HMAC.Sum (lib : CryptoLib) (mac : HMAC) (b : Bytes) : Bytes :=
  b ++ lib.hmacSHA512 mac.key mac.written

/-- Go `wallet.KeyPair`. -/
structure KeyPair where
  Private : Bytes
  Public : Bytes
  deriving DecidableEq, Repr

/-- Go `wallet.DeriveKeysFromSeed`.  `none` is a panic (of
`ed25519.NewKeyFromSeed`, or of the slice `privateKey[32:]`); the returned
error is always `nil`, so a normal return is `some (.ok keys)`. -/
def DeriveKeysFromSeed (lib : CryptoLib) (seed : List GoString) :
    Option (Except GoError KeyPair) :=
  let seedPhrase := Join seed " ".toList
  let mac := hmacNew (toBytes seedPhrase)
  let mac := mac.Write (toBytes "".toList)
  let hash := mac.Sum lib []
  let derivedKey := lib.pbkdf2SHA512 hash (toBytes "TON default seed".toList) 100000 32
  match lib.ed25519NewKeyFromSeed derivedKey with
  | none => none
  | some privateKey =>
    if privateKey.length < 32 then none
    else
      let publicKeyBytes := privateKey.drop 32
      some (.ok ⟨privateKey, publicKeyBytes⟩)

/-! ## Wallet assembly (`internal/wallet/generator.go`) -/

/-- Go `wallet.Info`, for values with a non-nil address; `Address` stands for
the library type `address.Address`. -/
structure Info (Address : Type) where
  Config : Config
  Keys : KeyPair
  Address : Address

/-- Go `wallet.Generate`.  `AddressFromPubKey` is the library function
`tonwallet.AddressFromPubKey`, the external address derivation.  The result is
`none` when the function panics; otherwise it is the pair returned, the info
(`none` for the zero value `Info{}`) and the error (`none` for `nil`). -/
def Generate {Address : Type} (lib : CryptoLib)
    (AddressFromPubKey : Bytes → VersionConfig → Nat → Except GoError Address)
    (config : Config) : Option (Option (Info Address) × Option GoError) :=
  match DeriveKeysFromSeed lib config.Seed with
  | none => none
  | some (.error err) => some (none, some (.errorfWrap "failed to derive keys: ".toList err))
  | some (.ok keys) =>
    match AddressFromPubKey keys.Public config.Version config.SubwalletID with
    | .error err =>
      some (none, some (.errorfWrap "failed to create wallet address: ".toList err))
    | .ok addr => some (some ⟨config, keys, addr⟩, none)

/-! ## Mode selection (`internal/cli/flags.go`) -/

/-- Go `Flags.IsCLIMode`. -/
def IsCLIMode (f : Flags) : Bool :=
  f.Generate || decide (f.Seed ≠ []) || decide (f.Network ≠ []) || decide (f.Version ≠ []) ||
    decide (f.Subwallet ≥ 0)

/-! ## The top-level program (`main.go`) -/

namespace Main

/-- Go `CLIFlags` of `main.go`. -/
structure CLIFlags where
  Generate : Bool
  Seed : GoString
  Network : GoString
  Version : GoString
  Subwallet : Int
  SimpleMode : Bool
  deriving DecidableEq, Repr

/-- Go `WalletConfig` of `main.go`. -/
structure WalletConfig where
  Seed : List GoString
  NetworkGlobalID : Int
  NetworkName : GoString
  Version : VersionConfig
  VersionName : GoString
  SubwalletID : Nat
  deriving DecidableEq, Repr

/-- Go `KeyPair` of `main.go`. -/
structure KeyPair where
  Private : Bytes
  Public : Bytes
  deriving DecidableEq, Repr

/-- Go `buildConfigFromFlags` of `main.go`.  `newSeed` is what
`wallet.NewSeed()` returns in this run. -/
def buildConfigFromFlags (caseTable : Char → Char) (newSeed : List GoString)
    (flags : CLIFlags) : Except GoError WalletConfig :=
  let seedStep : Except GoError (List GoString) :=
    if flags.Generate then .ok newSeed
    else if flags.Seed ≠ [] then
      let seed := Fields flags.Seed
      if seed.length ≠ 24 then
        .error (.errorf ("seed phrase must contain exactly 24 words, got ".toList ++
          fmtNat seed.length))
      else .ok seed
    else .error (.errorf "either --generate or --seed must be provided".toList)
  match seedStep with
  | .error err => .error err
  | .ok seed =>
    let networkStep : Except GoError (Int × GoString) :=
      if flags.Network ≠ [] then
        let n := ToLower caseTable flags.Network
        if n = "mainnet".toList ∨ n = "main".toList then
          .ok (MainnetGlobalID, "Mainnet".toList)
        else if n = "testnet".toList ∨ n = "test".toList then
          .ok (TestnetGlobalID, "Testnet".toList)
        else .error (.errorf ("invalid network: ".toList ++ flags.Network ++
          " (use mainnet or testnet)".toList))
      else .ok (MainnetGlobalID, "Mainnet".toList)
    match networkStep with
    | .error err => .error err
    | .ok (networkID, networkName) =>
      let versionStr :=
        if flags.Version ≠ [] then ToLower caseTable flags.Version else "v4r2".toList
      let versionStep : Except GoError (VersionConfig × GoString × Bool) :=
        if versionStr = "v3r1".toList then .ok (.V3R1, "V3R1".toList, false)
        else if versionStr = "v3r2".toList then .ok (.V3R2, "V3R2".toList, false)
        else if versionStr = "v4r1".toList then .ok (.V4R1, "V4R1".toList, false)
        else if versionStr = "v4r2".toList then .ok (.V4R2, "V4R2".toList, false)
        else if versionStr = "v5r1beta".toList ∨ versionStr = "v5beta".toList then
          .ok (.ConfigV5R1Beta networkID, "V5R1 Beta".toList, true)
        else if versionStr = "v5r1final".toList ∨ versionStr = "v5r1".toList ∨
            versionStr = "v5".toList then
          .ok (.ConfigV5R1Final networkID, "V5R1 Final".toList, true)
        else .error (.errorf ("invalid version: ".toList ++ flags.Version))
      match versionStep with
      | .error err => .error err
      | .ok (walletVersion, versionName, v5) =>
        let subwalletID : Nat := if v5 then 0 else DefaultSubwallet % 2 ^ 32
        let subwalletID : Nat :=
          if flags.Subwallet ≥ 0 then (flags.Subwallet % 2 ^ 32).toNat else subwalletID
        .ok ⟨seed, networkID, networkName, walletVersion, versionName, subwalletID⟩

/-- The code after the loop of `readMultiLineSeed` of `main.go`: at most the
first 24 words are returned. -/
def afterLoop (allWords : List GoString) (scanner : Scanner) :
    Except GoError (List GoString) × Scanner :=
  (.ok (if allWords.length > 24 then allWords.take 24 else allWords), scanner)

/-- The loop of `readMultiLineSeed` of `main.go` on the variables `allWords`
and `emptyLineCount`; a `break` goes on with `afterLoop`. -/
def readLines (caseTable : Char → Char) :
    Scanner → List GoString → Nat → Except GoError (List GoString) × Scanner
  | [], allWords, _ =>
    if allWords.length > 0 then afterLoop allWords []
    else (.error (.errorf "failed to read seed phrase".toList), [])
  | line :: scanner, allWords, emptyLineCount =>
    if TrimSpace line = [] then
      if allWords.length > 0 ∧ emptyLineCount + 1 ≥ 2 then afterLoop allWords scanner
      else if allWords.length ≥ 24 ∧ emptyLineCount + 1 ≥ 1 then afterLoop allWords scanner
      else readLines caseTable scanner allWords (emptyLineCount + 1)
    else
      let line := ReplaceAll line ',' ' '
      let line := ReplaceAll line '\t' ' '
      let line := ReplaceAll line ';' ' '
      let line := ReplaceAll line '|' ' '
      let line := ReplaceAll line '.' ' '
      let words := Fields line
      let allWords := words.foldl
        (fun acc word =>
          let word := ToLower caseTable (TrimSpace word)
          if word ≠ [] then acc ++ [word] else acc)
        allWords
      if allWords.length ≥ 24 then afterLoop allWords scanner
      else readLines caseTable scanner allWords 0

/-- Go `readMultiLineSeed` of `main.go`. -/
def readMultiLineSeed (caseTable : Char → Char) (scanner : Scanner) :
    Except GoError (List GoString) × Scanner :=
  readLines caseTable scanner [] 0

/-- Go `deriveKeysFromSeed` of `main.go`; `none` is a panic. -/
def deriveKeysFromSeed (lib : CryptoLib) (seed : List GoString) :
    Option (Except GoError KeyPair) :=
  let seedPhrase := Join seed " ".toList
  let hash := (((hmacNew (toBytes seedPhrase)).Write (toBytes "".toList)).Sum lib [])
  let derivedKey := lib.pbkdf2SHA512 hash (toBytes "TON default seed".toList) 100000 32
  match lib.ed25519NewKeyFromSeed derivedKey with
  | none => none
  | some privateKey =>
    if privateKey.length < 32 then none
    else some (.ok ⟨privateKey, privateKey.drop 32⟩)

end Main

/-- The fields of the flags of `main.go` as flags of `internal/cli`. -/
def flagsOfMain (f : Main.CLIFlags) : Flags :=
  ⟨f.Generate, f.Seed, f.Network, f.Version, f.Subwallet, f.SimpleMode⟩

/-- The fields of a configuration of `main.go` as a `wallet.Config`. -/
def configOfMain (c : Main.WalletConfig) : Config :=
  ⟨c.Seed, c.NetworkGlobalID, c.NetworkName, c.Version, c.VersionName, c.SubwalletID⟩

/-- The fields of a key pair of `main.go` as a `wallet.KeyPair`. -/
def keyPairOfMain (k : Main.KeyPair) : KeyPair := ⟨k.Private, k.Public⟩

/-! ## Reference notions from the specification -/

/-- The characters the specification lists as separators next to the space. -/
def isSeparator (c : Char) : Bool :=
  c == ',' || c == '\t' || c == ';' || c == '|' || c == '.'

/-- The token list of a line as the specification words it: every separator
replaced by a space, the line split on runs of white space, every token put in
lower case. -/
def lineTokens (caseTable : Char → Char) (line : GoString) : List GoString :=
  (Fields (line.map (fun c => if isSeparator c then ' ' else c))).map (ToLower caseTable)

/-- The concatenation of the per-line token lists. -/
def tokensOf (caseTable : Char → Char) (lines : List GoString) : List GoString :=
  lines.flatMap (lineTokens caseTable)

/-- A white-space-only line, as the reader tests it. -/
def isBlank (line : GoString) : Bool := TrimSpace line = []

/-- No two consecutive lines are white-space-only. -/
def noTwoBlank : List GoString → Bool
  | a :: b :: rest => !(isBlank a && isBlank b) && noTwoBlank (b :: rest)
  | _ => true

/-- The accumulator `allWords` as it stands when the loop of
`readMultiLineSeed` is left by a `break` (empty when it is left by `return`). -/
def accumulated (caseTable : Char → Char) (scanner : Scanner) : List GoString :=
  match (readLoop caseTable scanner ⟨[], 0⟩).1 with
  | .brk _ st => st.allWords
  | .ret _ => []

/-- The Unicode lower-case table is well behaved above ASCII: lowering is
idempotent, white space stays white space and other characters stay other
characters, and no separator (all of them ASCII) is the image of a character
above ASCII. -/
structure CaseTableOK (caseTable : Char → Char) : Prop where
  idem : ∀ c, 127 < c.toNat → toLowerRune caseTable (caseTable c) = caseTable c
  space : ∀ c, 127 < c.toNat → isSpace (caseTable c) = isSpace c
  sep : ∀ c, 127 < c.toNat → isSeparator (caseTable c) = false

/-- A token: not empty, without white space or separator, and in lower case. -/
def IsToken (caseTable : Char → Char) (w : GoString) : Prop :=
  w ≠ [] ∧ (∀ c ∈ w, isSpace c = false ∧ isSeparator c = false) ∧ ToLower caseTable w = w

/-- One call of `scanner.Scan()` followed by the loop body, on the variables
`st`: `none` is a failed scan, `some line` a delivered line. -/
def pass (caseTable : Char → Char) (st : ReaderState) : Option GoString → Control
  | none => .exit (scanFailed st)
  | some line => loopBody caseTable st line

/-- Whether a pass leaves the loop. -/
def Control.stops : Control → Bool
  | .exit _ => true
  | .next _ => false

/-- The loop variables after a further line, `none` once the loop is left. -/
def stepLine (caseTable : Char → Char) (o : Option ReaderState) (line : GoString) :
    Option ReaderState :=
  match o with
  | none => none
  | some st =>
    match loopBody caseTable st line with
    | .next st' => some st'
    | .exit _ => none

/-- The loop variables after the loop, started on `st`, has read the lines
`hist` and is still running; `none` if it left the loop on one of them. -/
def runFrom (caseTable : Char → Char) (st : ReaderState) (hist : List GoString) :
    Option ReaderState :=
  hist.foldl (stepLine caseTable) (some st)

/-- The loop variables of `readMultiLineSeed` after it has read `hist` and is
still running. -/
def stateAfter (caseTable : Char → Char) (hist : List GoString) : Option ReaderState :=
  runFrom caseTable ⟨[], 0⟩ hist

/-- The last line read is white-space-only. -/
def endsBlank (hist : List GoString) : Bool :=
  match hist.getLast? with
  | some line => isBlank line
  | none => false

/-- The stop situations (a), (b), (c) of the specification, for a reader that
has read `hist` and now scans `scan`: (a) 24 or more tokens are held and a
white-space-only line is seen, (b) a token is held and a second consecutive
white-space-only line is seen, (c) the input is exhausted while a token is
held. -/
def specStops (caseTable : Char → Char) (hist : List GoString) (scan : Option GoString) : Bool :=
  match scan with
  | some line =>
    isBlank line && (decide (24 ≤ (tokensOf caseTable hist).length) ||
      (decide (1 ≤ (tokensOf caseTable hist).length) && endsBlank hist))
  | none => decide (1 ≤ (tokensOf caseTable hist).length)

/-- The stop situations of the code: a line that is not white-space-only
brings the tokens held to 24 or more, or a token is held and a second
consecutive white-space-only line is seen, or the input is exhausted. -/
def codeStops (caseTable : Char → Char) (hist : List GoString) (scan : Option GoString) : Bool :=
  match scan with
  | some line =>
    if isBlank line then decide (1 ≤ (tokensOf caseTable hist).length) && endsBlank hist
    else decide (24 ≤ (tokensOf caseTable (hist ++ [line])).length)
  | none => true

/-- The ASCII bytes of a text. -/
def asciiBytes (s : GoString) : Bytes := s.map (fun c => UInt8.ofNat c.toNat)

/-- The derivation pipeline as the specification words it: the words joined by
one space, HMAC-SHA512 keyed with the phrase over the empty message, PBKDF2
with the salt `TON default seed`, 100000 iterations and 32 bytes of output, the
ed25519 expansion as private key, its bytes 32..63 as public key. -/
def referenceDerive (lib : CryptoLib) (ws : List GoString) : Option KeyPair :=
  let phrase := Join ws [' ']
  let h := lib.hmacSHA512 (toBytes phrase) []
  let derivedKey := lib.pbkdf2SHA512 h (asciiBytes "TON default seed".toList) 100000 32
  match lib.ed25519NewKeyFromSeed derivedKey with
  | none => none
  | some priv => some ⟨priv, (priv.take 64).drop 32⟩

/-- A stand-in for the cryptographic library with the documented output
lengths (not the real functions): it shows the contract `CryptoLib` can be met
and serves to evaluate the derivation on concrete input. -/
def lengthOnlyLib : CryptoLib where
  hmacSHA512 := fun _ _ => List.replicate 64 0
  pbkdf2SHA512 := fun _ _ _ keyLen => List.replicate keyLen 0
  ed25519NewKeyFromSeed := fun seed => if seed.length = 32 then some (seed ++ seed) else none
  pbkdf2_length := by intros; simp
  newKey_length := by
    intro seed h
    exact ⟨seed ++ seed, by simp [h], by simp [h]⟩

/-! ## Stages of `BuildConfig` and reference notions for the resolver -/

/-- The seed part of `BuildConfig`: the branches on `flags.Generate` and
`flags.Seed`. -/
def resolveSeed (newSeed : List GoString) (flags : Flags) : Except GoError (List GoString) :=
  if flags.Generate then .ok newSeed
  else if flags.Seed ≠ [] then
    let seed := Fields flags.Seed
    if seed.length ≠ 24 then
      .error (.errorf ("seed phrase must contain exactly 24 words, got ".toList ++
        fmtNat seed.length))
    else .ok seed
  else .error (.errorf "either --generate or --seed must be provided".toList)

/-- The rest of `BuildConfig`, from the network part on, for the seed `seed`. -/
def configWithSeed (caseTable : Char → Char) (flags : Flags) (seed : List GoString) :
    Except GoError Config :=
  match resolveNetwork caseTable flags with
  | .error err => .error err
  | .ok (networkID, networkName) =>
    match resolveVersion caseTable flags networkID with
    | .error err => .error err
    | .ok (walletVersion, versionName, isV5) =>
      .ok ⟨seed, networkID, networkName, walletVersion, versionName,
        resolveSubwallet flags isV5⟩

/-- The V5 variants. -/
def VersionConfig.isV5 : VersionConfig → Bool
  | .ConfigV5R1Beta _ => true
  | .ConfigV5R1Final _ => true
  | _ => false

/-- The network global id a V5 variant carries. -/
def VersionConfig.carriedID : VersionConfig → Option Int
  | .ConfigV5R1Beta n => some n
  | .ConfigV5R1Final n => some n
  | _ => none

/-- The display name of a version. -/
def versionNameOf : VersionConfig → GoString
  | .V3R1 => "V3R1".toList
  | .V3R2 => "V3R2".toList
  | .V4R1 => "V4R1".toList
  | .V4R2 => "V4R2".toList
  | .ConfigV5R1Beta _ => "V5R1 Beta".toList
  | .ConfigV5R1Final _ => "V5R1 Final".toList

/-- The subwallet default of a version family: 0 for V5, 698983191 otherwise. -/
def familyDefault (v : VersionConfig) : Nat := if v.isV5 then 0 else 698983191

/-- The network a network text denotes, as the specification words it: Mainnet
for the empty text and for `mainnet`, `main`, Testnet for `testnet`, `test`,
the text compared in lower case; nothing for any other text. -/
def specNetwork (caseTable : Char → Char) (s : GoString) : Option (Int × GoString) :=
  if s = [] ∨ ToLower caseTable s = "mainnet".toList ∨ ToLower caseTable s = "main".toList then
    some (MainnetGlobalID, "Mainnet".toList)
  else if ToLower caseTable s = "testnet".toList ∨ ToLower caseTable s = "test".toList then
    some (TestnetGlobalID, "Testnet".toList)
  else none

/-- The version a version text denotes on the network `networkID`, as the
specification words it: V4R2 for the empty text, otherwise the version whose
token or alias the text is in lower case; nothing for any other text. -/
def specVersion (caseTable : Char → Char) (s : GoString) (networkID : Int) :
    Option VersionConfig :=
  if s = [] then some .V4R2
  else if ToLower caseTable s = "v3r1".toList then some .V3R1
  else if ToLower caseTable s = "v3r2".toList then some .V3R2
  else if ToLower caseTable s = "v4r1".toList then some .V4R1
  else if ToLower caseTable s = "v4r2".toList then some .V4R2
  else if ToLower caseTable s = "v5r1beta".toList ∨ ToLower caseTable s = "v5beta".toList then
    some (.ConfigV5R1Beta networkID)
  else if ToLower caseTable s = "v5r1final".toList ∨ ToLower caseTable s = "v5r1".toList ∨
      ToLower caseTable s = "v5".toList then
    some (.ConfigV5R1Final networkID)
  else none

/-- An unsigned decimal numeral: one or more of the digits `0` .. `9`. -/
def isNumeral (s : GoString) : Bool :=
  decide (s ≠ []) && s.all (fun c => decide (48 ≤ c.toNat ∧ c.toNat ≤ 57))

/-- The number a decimal numeral denotes, read from `n` on. -/
def numeralFrom (n : Nat) (s : GoString) : Nat :=
  s.foldl (fun acc c => acc * 10 + (c.toNat - 48)) n

/-- The number a decimal numeral denotes. -/
def numeralValue (s : GoString) : Nat := numeralFrom 0 s

/-! ## Concrete inputs -/

/-- The 24 one-letter words `a` .. `x`. -/
def sampleWords : List GoString :=
  "abcdefghijklmnopqrstuvwx".toList.map (fun c => [c])

/-- The words of `sampleWords` on one line, separated by single spaces. -/
def sampleLine : GoString := "a b c d e f g h i j k l m n o p q r s t u v w x".toList

/-- A line of 25 words: the words of `sampleWords` and a further word `y`. -/
def sampleLine25 : GoString := "a b c d e f g h i j k l m n o p q r s t u v w x y".toList

/-- A line of 24 upper-case words. -/
def upperLine : GoString := "A B C D E F G H I J K L M N O P Q R S T U V W X".toList

/-- An entry of 27 words over several lines, with mixed separators, upper
case and a blank line in between. -/
def sampleEntry : List GoString :=
  ["a,b;c|d.e\tf g h".toList, [], "I J K L M N O P".toList, "q r s t u v w x y z".toList,
    "aa".toList]

/-- An entry of exactly 24 words on three lines, each with its own separator. -/
def threeLines : List GoString :=
  ["a,b,c,d,e,f,g,h".toList, "i;j;k;l;m;n;o;p".toList, "q|r|s|t|u|v|w|x".toList]

/-! ## Lemmas on the string functions -/

theorem fieldsFrom_mem (s : GoString) : ∀ cur : GoString, (∀ c ∈ cur, isSpace c = false) →
    ∀ f ∈ fieldsFrom s cur, f ≠ [] ∧ ∀ c ∈ f, isSpace c = false := by
  induction s with
  | nil =>
    intro cur hcur f hf
    unfold fieldsFrom at hf
    split at hf
    · simp at hf
    · simp at hf; subst hf; exact ⟨by assumption, hcur⟩
  | cons c cs ih =>
    intro cur hcur f hf
    unfold fieldsFrom at hf
    by_cases hc : isSpace c = true
    · simp only [hc, if_true] at hf
      split at hf
      · exact ih [] (by simp) f hf
      · rcases List.mem_cons.1 hf with h | h
        · subst h; exact ⟨by assumption, hcur⟩
        · exact ih [] (by simp) f h
    · simp only [hc] at hf
      refine ih (cur ++ [c]) ?_ f hf
      intro d hd
      rcases List.mem_append.1 hd with h | h
      · exact hcur d h
      · simp at h; subst h; simpa using hc

/-- Every field is non-empty and free of white space. -/
theorem Fields_mem (s f : GoString) (hf : f ∈ Fields s) :
    f ≠ [] ∧ ∀ c ∈ f, isSpace c = false :=
  fieldsFrom_mem s [] (by simp) f hf

/-- A white-space character closes the current field. -/
theorem fieldsFrom_append_space (a : GoString) (c : Char) (b : GoString) (hc : isSpace c = true) :
    ∀ cur, fieldsFrom (a ++ c :: b) cur = fieldsFrom a cur ++ Fields b := by
  induction a with
  | nil =>
    intro cur
    simp only [List.nil_append, fieldsFrom, hc, if_true, Fields]
    split <;> simp
  | cons d ds ih =>
    intro cur
    simp only [List.cons_append, fieldsFrom]
    by_cases hd : isSpace d = true
    · simp only [hd, if_true]
      split <;> simp [ih]
    · simp only [hd]
      exact ih _

theorem Fields_append_space (a b : GoString) :
    Fields (a ++ ' ' :: b) = Fields a ++ Fields b :=
  fieldsFrom_append_space a ' ' b (by decide) []

/-- Characters that are not white space extend the current field. -/
theorem fieldsFrom_nonspace (w : GoString) (hw : ∀ c ∈ w, isSpace c = false) :
    ∀ (s cur : GoString), fieldsFrom (w ++ s) cur = fieldsFrom s (cur ++ w) := by
  induction w with
  | nil => intro s cur; simp
  | cons d ds ih =>
    intro s cur
    have hd : isSpace d = false := hw d (by simp)
    have e : fieldsFrom (d :: (ds ++ s)) cur = fieldsFrom (ds ++ s) (cur ++ [d]) := by
      simp [fieldsFrom, hd]
    rw [List.cons_append, e, ih (fun c hc => hw c (by simp [hc]))]
    simp

/-- A non-empty string without white space is its own single field. -/
theorem Fields_word (w : GoString) (hne : w ≠ []) (hw : ∀ c ∈ w, isSpace c = false) :
    Fields w = [w] := by
  have h := fieldsFrom_nonspace w hw [] []
  simp only [List.append_nil, List.nil_append] at h
  rw [Fields, h, fieldsFrom, if_neg hne]

/-- A string of white space has no field. -/
theorem Fields_allSpace (s : GoString) (hs : ∀ c ∈ s, isSpace c = true) : Fields s = [] := by
  unfold Fields
  induction s with
  | nil => simp [fieldsFrom]
  | cons d ds ih =>
    have hd : isSpace d = true := hs d (by simp)
    simp only [fieldsFrom, hd, if_true]
    exact ih (fun c hc => hs c (by simp [hc]))

/-- Splitting a space-joined text is splitting its parts. -/
theorem Fields_Join (parts : List GoString) :
    Fields (Join parts [' ']) = parts.flatMap Fields := by
  induction parts with
  | nil => simp [Join, Fields, fieldsFrom]
  | cons a rest ih =>
    cases rest with
    | nil => simp [Join]
    | cons b rest =>
      simp only [Join, List.append_assoc, List.singleton_append, Fields_append_space, ih,
        List.flatMap_cons]

theorem TrimSpace_eq_nil (s : GoString) : TrimSpace s = [] ↔ ∀ c ∈ s, isSpace c = true := by
  unfold TrimSpace
  rw [List.reverse_eq_nil_iff, List.dropWhile_eq_nil_iff]
  constructor
  · intro h
    have h2 : List.dropWhile isSpace s = [] := by
      cases hd : List.dropWhile isSpace s with
      | nil => rfl
      | cons x xs =>
        have hx : isSpace x = true := h x (by simp [hd])
        have := List.head_dropWhile_not isSpace s (by simp [hd])
        simp [hd] at this
        simp [this] at hx
    exact List.dropWhile_eq_nil_iff.1 h2
  · intro h x hx
    rw [List.dropWhile_eq_nil_iff.2 h] at hx
    simp at hx

/-- Trimming leaves a string without white space as it is. -/
theorem TrimSpace_word (w : GoString) (hw : ∀ c ∈ w, isSpace c = false) : TrimSpace w = w := by
  have h : ∀ l : GoString, (∀ c ∈ l, isSpace c = false) → l.dropWhile isSpace = l := by
    intro l hl
    cases l with
    | nil => rfl
    | cons x xs => simp [List.dropWhile, hl x (by simp)]
  unfold TrimSpace
  rw [h w hw, h w.reverse (fun c hc => hw c (by simpa using hc)), List.reverse_reverse]

/-! ## Lemmas on the loop body -/

theorem replaceSeparators_eq_map (line : GoString) :
    replaceSeparators line = line.map (fun c => if isSeparator c then ' ' else c) := by
  simp only [replaceSeparators, ReplaceAll, List.map_map]
  apply List.map_congr_left
  intro c _
  simp only [Function.comp, isSeparator, Bool.or_eq_true, beq_iff_eq]
  by_cases h1 : c = ','
  · subst h1; decide
  by_cases h2 : c = '\t'
  · subst h2; decide
  by_cases h3 : c = ';'
  · subst h3; decide
  by_cases h4 : c = '|'
  · subst h4; decide
  by_cases h5 : c = '.'
  · subst h5; decide
  simp [h1, h2, h3, h4, h5]

theorem appendWords_eq (caseTable : Char → Char) (words : List GoString)
    (hw : ∀ w ∈ words, w ≠ [] ∧ ∀ c ∈ w, isSpace c = false) :
    ∀ allWords, appendWords caseTable allWords words = allWords ++ words.map (ToLower caseTable) := by
  induction words with
  | nil => intro a; simp [appendWords]
  | cons w ws ih =>
    intro a
    have h1 := hw w (by simp)
    have h2 : ToLower caseTable (TrimSpace w) ≠ [] := by
      rw [TrimSpace_word w h1.2]
      simpa [ToLower] using h1.1
    have := ih (fun v hv => hw v (by simp [hv])) (a ++ [ToLower caseTable (TrimSpace w)])
    simp only [appendWords] at this ⊢
    simp only [List.foldl_cons, h2, ne_eq, not_false_eq_true, if_true, this]
    rw [TrimSpace_word w h1.2]
    simp

theorem appendWords_line (caseTable : Char → Char) (allWords : List GoString) (line : GoString) :
    appendWords caseTable allWords (Fields (replaceSeparators line)) =
      allWords ++ lineTokens caseTable line := by
  rw [appendWords_eq caseTable _ (fun w hw => Fields_mem _ w hw), lineTokens,
    replaceSeparators_eq_map]

theorem lineTokens_blank (caseTable : Char → Char) (line : GoString) (h : TrimSpace line = []) :
    lineTokens caseTable line = [] := by
  rw [TrimSpace_eq_nil] at h
  rw [lineTokens, Fields_allSpace]
  · rfl
  · intro c hc
    obtain ⟨d, hd, rfl⟩ := List.mem_map.1 hc
    split
    · decide
    · exact h d hd

theorem lineTokens_Join (caseTable : Char → Char) (lines : List GoString) :
    lineTokens caseTable (Join lines [' ']) = tokensOf caseTable lines := by
  have hmap : ∀ ls : List GoString,
      (Join ls [' ']).map (fun c => if isSeparator c then ' ' else c) =
        Join (ls.map (List.map (fun c => if isSeparator c then ' ' else c))) [' '] := by
    intro ls
    induction ls with
    | nil => simp [Join]
    | cons a rest ih =>
      cases rest with
      | nil => simp [Join]
      | cons b rest =>
        simp only [Join, List.map_append, ih, List.map_cons, List.map_nil]
        simp [isSeparator]
  simp only [lineTokens, tokensOf, hmap, Fields_Join, List.flatMap, List.map_map, List.map_flatten]
  rfl

/-- The loop body, with the line's tokens named. -/
theorem loopBody_eq (caseTable : Char → Char) (st : ReaderState) (line : GoString) :
    loopBody caseTable st line =
      if TrimSpace line = [] then
        if st.allWords.length > 0 ∧ st.emptyLineCount + 1 ≥ 2 then
          .exit (.brk .twoEmptyLines ⟨st.allWords, st.emptyLineCount + 1⟩)
        else if st.allWords.length ≥ 24 ∧ st.emptyLineCount + 1 ≥ 1 then
          .exit (.brk .emptyLineAfter24 ⟨st.allWords, st.emptyLineCount + 1⟩)
        else .next ⟨st.allWords, st.emptyLineCount + 1⟩
      else
        if (st.allWords ++ lineTokens caseTable line).length ≥ 24 then
          .exit (.brk .reached24 ⟨st.allWords ++ lineTokens caseTable line, 0⟩)
        else .next ⟨st.allWords ++ lineTokens caseTable line, 0⟩ := by
  simp only [loopBody, appendWords_line]

/-! ## Lemmas on the loop -/

/-- The lines a run of the loop consumes, and the accumulator it leaves. -/
theorem readLoop_words (caseTable : Char → Char) : ∀ (lines : Scanner) (st : ReaderState),
    ∃ consumed, lines = consumed ++ (readLoop caseTable lines st).2 ∧
      ∀ site st', (readLoop caseTable lines st).1 = .brk site st' →
        st'.allWords = st.allWords ++ tokensOf caseTable consumed := by
  intro lines
  induction lines with
  | nil =>
    intro st
    refine ⟨[], by simp [readLoop], ?_⟩
    intro site st' h
    simp only [readLoop, scanFailed] at h
    split at h
    · cases h; simp [tokensOf]
    · cases h
  | cons line rest ih =>
    intro st
    simp only [readLoop, loopBody_eq]
    by_cases hb : TrimSpace line = []
    · have ht := lineTokens_blank caseTable line hb
      simp only [hb, if_true]
      split_ifs
      · refine ⟨[line], by simp, ?_⟩
        intro site st' h; cases h; simp [tokensOf, ht]
      · refine ⟨[line], by simp, ?_⟩
        intro site st' h; cases h; simp [tokensOf, ht]
      · obtain ⟨c, hc, hw⟩ := ih ⟨st.allWords, st.emptyLineCount + 1⟩
        refine ⟨line :: c, by simp only [List.cons_append]; rw [← hc], ?_⟩
        intro site st' h
        rw [hw site st' h]
        simp [tokensOf, ht]
    · simp only [hb, if_false]
      split_ifs
      · refine ⟨[line], by simp, ?_⟩
        intro site st' h; cases h; simp [tokensOf]
      · obtain ⟨c, hc, hw⟩ := ih ⟨st.allWords ++ lineTokens caseTable line, 0⟩
        refine ⟨line :: c, by simp only [List.cons_append]; rw [← hc], ?_⟩
        intro site st' h
        rw [hw site st' h]
        simp [tokensOf]

theorem readMultiLineSeed_of_accumulated (caseTable : Char → Char) (lines : Scanner)
    (h : 24 ≤ (accumulated caseTable lines).length) :
    (readMultiLineSeed caseTable lines).1 = .ok ((tokensOf caseTable lines).take 24) := by
  obtain ⟨consumed, hc, hw⟩ := readLoop_words caseTable lines ⟨[], 0⟩
  unfold accumulated at h
  unfold readMultiLineSeed
  cases hr : readLoop caseTable lines ⟨[], 0⟩ with
  | mk e rest =>
    rw [hr] at hc hw h
    cases e with
    | ret err => simp at h
    | brk site st =>
      have hst := hw site st rfl
      simp only [List.nil_append] at hst
      simp only at h ⊢
      have htok : tokensOf caseTable lines =
          st.allWords ++ tokensOf caseTable rest := by
        rw [hc, hst]; simp [tokensOf]
      rw [htok, List.take_append_of_le_length h]
      split_ifs with h24
      · rfl
      · have : st.allWords.length = 24 := by omega
        rw [← this, List.take_length]

/-- With no two consecutive blank lines the loop runs until the accumulator is full. -/
theorem readLoop_reaches (caseTable : Char → Char) : ∀ (lines : Scanner) (st : ReaderState),
    st.allWords.length < 24 →
    24 ≤ st.allWords.length + (tokensOf caseTable lines).length →
    noTwoBlank lines = true →
    (st.emptyLineCount = 0 ∨
      (st.emptyLineCount = 1 ∧ ∀ l rest, lines = l :: rest → isBlank l = false)) →
    ∃ st', (readLoop caseTable lines st).1 = .brk .reached24 st' ∧ 24 ≤ st'.allWords.length := by
  intro lines
  induction lines with
  | nil =>
    intro st h1 h2 _ _
    simp [tokensOf] at h2
    omega
  | cons line rest ih =>
    intro st h1 h2 h3 h4
    simp only [readLoop, loopBody_eq]
    by_cases hb : TrimSpace line = []
    · have ht := lineTokens_blank caseTable line hb
      have hbl : isBlank line = true := by simp [isBlank, hb]
      have he : st.emptyLineCount = 0 := by
        rcases h4 with h | ⟨_, h⟩
        · exact h
        · have := h line rest rfl
          simp [hbl] at this
      simp only [hb, if_true, he]
      rw [if_neg (by omega), if_neg (by omega)]
      refine ih ⟨st.allWords, 0 + 1⟩ h1 ?_ ?_ ?_
      · simpa [tokensOf, ht] using h2
      · cases rest with
        | nil => rfl
        | cons b r => simp [noTwoBlank] at h3; exact h3.2
      · right
        refine ⟨rfl, ?_⟩
        intro l r hl
        subst hl
        simp [noTwoBlank, hbl] at h3
        exact h3.1
    · simp only [hb, if_false]
      split_ifs with h24
      · exact ⟨_, rfl, h24⟩
      · refine ih ⟨st.allWords ++ lineTokens caseTable line, 0⟩ (by simpa using h24) ?_ ?_ (Or.inl rfl)
        · simp [tokensOf] at h2 ⊢; omega
        · cases rest with
          | nil => rfl
          | cons b r => simp [noTwoBlank] at h3; exact h3.2

theorem readMultiLineSeed_single (caseTable : Char → Char) (line : GoString)
    (h : (lineTokens caseTable line).length = 24) :
    readMultiLineSeed caseTable [line] = (.ok (lineTokens caseTable line), []) := by
  have hb : ¬ TrimSpace line = [] := by
    intro hb
    rw [lineTokens_blank caseTable line hb] at h
    simp at h
  simp [readMultiLineSeed, readLoop, loopBody_eq, hb, h]

/-! ## Lemmas on lower case and tokens -/

theorem toLowerRune_upper (caseTable : Char → Char) (c : Char)
    (h : 65 ≤ c.toNat ∧ c.toNat ≤ 90) :
    toLowerRune caseTable (toLowerRune caseTable c) = toLowerRune caseTable c ∧
    isSpace (toLowerRune caseTable c) = false ∧ isSeparator (toLowerRune caseTable c) = false ∧
    isSpace c = false ∧ isSeparator c = false := by
  have hc : c = Char.ofNat c.toNat := (Char.ofNat_toNat c).symm
  obtain ⟨h1, h2⟩ := h
  generalize c.toNat = n at hc h1 h2
  subst hc
  interval_cases n <;> refine ⟨?_, ?_, ?_, ?_, ?_⟩ <;> rfl

theorem isSeparator_ascii (c : Char) (h : isSeparator c = true) : c.toNat ≤ 127 := by
  simp only [isSeparator, Bool.or_eq_true, beq_iff_eq] at h
  rcases h with (((h | h) | h) | h) | h <;> subst h <;> decide

/-- Lowering is idempotent and keeps white space and separators apart from the rest. -/
theorem toLowerRune_ok (caseTable : Char → Char) (ok : CaseTableOK caseTable) (c : Char) :
    toLowerRune caseTable (toLowerRune caseTable c) = toLowerRune caseTable c ∧
    isSpace (toLowerRune caseTable c) = isSpace c ∧
    isSeparator (toLowerRune caseTable c) = isSeparator c := by
  by_cases ha : c.toNat ≤ 127
  · by_cases hu : 65 ≤ c.toNat ∧ c.toNat ≤ 90
    · obtain ⟨h1, h2, h3, h4, h5⟩ := toLowerRune_upper caseTable c hu
      exact ⟨h1, by rw [h2, h4], by rw [h3, h5]⟩
    · have e : toLowerRune caseTable c = c := by simp [toLowerRune, ha, hu]
      rw [e]; exact ⟨e, rfl, rfl⟩
  · have e : toLowerRune caseTable c = caseTable c := by simp [toLowerRune, ha]
    have hs : isSeparator c = false := by
      cases h : isSeparator c with
      | false => rfl
      | true => exact absurd (isSeparator_ascii c h) ha
    rw [e]
    exact ⟨ok.idem c (by omega), ok.space c (by omega), by rw [ok.sep c (by omega), hs]⟩

theorem fieldsFrom_subset (s : GoString) : ∀ cur : GoString,
    ∀ f ∈ fieldsFrom s cur, ∀ c ∈ f, c ∈ cur ∨ c ∈ s := by
  induction s with
  | nil =>
    intro cur f hf c hc
    unfold fieldsFrom at hf
    split at hf
    · simp at hf
    · simp at hf; subst hf; exact Or.inl hc
  | cons d ds ih =>
    intro cur f hf c hc
    unfold fieldsFrom at hf
    by_cases hd : isSpace d = true
    · simp only [hd, if_true] at hf
      split at hf
      · rcases ih [] f hf c hc with h | h
        · simp at h
        · exact Or.inr (by simp [h])
      · rcases List.mem_cons.1 hf with h | h
        · subst h; exact Or.inl hc
        · rcases ih [] f h c hc with h | h
          · simp at h
          · exact Or.inr (by simp [h])
    · simp only [hd] at hf
      rcases ih (cur ++ [d]) f hf c hc with h | h
      · rcases List.mem_append.1 h with h | h
        · exact Or.inl h
        · simp at h; exact Or.inr (by simp [h])
      · exact Or.inr (by simp [h])

theorem lineTokens_isToken (caseTable : Char → Char) (ok : CaseTableOK caseTable)
    (line w : GoString) (hw : w ∈ lineTokens caseTable line) : IsToken caseTable w := by
  obtain ⟨f, hf, rfl⟩ := List.mem_map.1 hw
  obtain ⟨hne, hsp⟩ := Fields_mem _ f hf
  have hsep : ∀ c ∈ f, isSeparator c = false := by
    intro c hc
    rcases fieldsFrom_subset _ [] f hf c hc with h | h
    · simp at h
    · obtain ⟨d, _, hd⟩ := List.mem_map.1 h
      by_cases hs : isSeparator d = true
      · rw [if_pos hs] at hd
        have := hsp c hc
        rw [← hd] at this
        exact absurd this (by decide)
      · rw [if_neg hs] at hd
        rw [← hd]; simpa using hs
  refine ⟨by simpa [ToLower] using hne, ?_, ?_⟩
  · intro c hc
    obtain ⟨d, hd, rfl⟩ := List.mem_map.1 hc
    obtain ⟨_, h2, h3⟩ := toLowerRune_ok caseTable ok d
    exact ⟨by rw [h2, hsp d hd], by rw [h3, hsep d hd]⟩
  · simp only [ToLower, List.map_map]
    apply List.map_congr_left
    intro d _
    exact (toLowerRune_ok caseTable ok d).1

theorem tokensOf_isToken (caseTable : Char → Char) (ok : CaseTableOK caseTable)
    (lines : List GoString) (w : GoString) (hw : w ∈ tokensOf caseTable lines) :
    IsToken caseTable w := by
  obtain ⟨line, _, hl⟩ := List.mem_flatMap.1 hw
  exact lineTokens_isToken caseTable ok line w hl

theorem lineTokens_token (caseTable : Char → Char) (w : GoString) (hw : IsToken caseTable w) :
    lineTokens caseTable w = [w] := by
  obtain ⟨hne, hc, hl⟩ := hw
  have hm : w.map (fun c => if isSeparator c then ' ' else c) = w := by
    conv_rhs => rw [← List.map_id w]
    apply List.map_congr_left
    intro c h
    simp [(hc c h).2]
  rw [lineTokens, hm, Fields_word w hne (fun c h => (hc c h).1)]
  simp [hl]

theorem tokensOf_tokens (caseTable : Char → Char) (ws : List GoString)
    (hws : ∀ w ∈ ws, IsToken caseTable w) : tokensOf caseTable ws = ws := by
  induction ws with
  | nil => rfl
  | cons w rest ih =>
    have h1 := lineTokens_token caseTable w (hws w (by simp))
    have h2 := ih (fun v hv => hws v (by simp [hv]))
    simp only [tokensOf, List.flatMap_cons] at h2 ⊢
    rw [h1, h2]; rfl

/-- Every word `readMultiLineSeed` returns is a token of one of the lines. -/
theorem readMultiLineSeed_mem (caseTable : Char → Char) (lines : Scanner) (ws : List GoString)
    (h : (readMultiLineSeed caseTable lines).1 = .ok ws) :
    ∀ w ∈ ws, w ∈ tokensOf caseTable lines := by
  obtain ⟨consumed, hc, hw⟩ := readLoop_words caseTable lines ⟨[], 0⟩
  unfold readMultiLineSeed at h
  cases hr : readLoop caseTable lines ⟨[], 0⟩ with
  | mk e rest =>
    rw [hr] at hc hw h
    cases e with
    | ret err => simp at h
    | brk site st =>
      have hst := hw site st rfl
      simp only [List.nil_append] at hst
      simp only [Except.ok.injEq] at h
      intro w hwm
      have hin : w ∈ st.allWords := by
        rw [← h] at hwm
        split_ifs at hwm
        · exact List.mem_of_mem_take hwm
        · exact hwm
      rw [hc, tokensOf, List.flatMap_append]
      exact List.mem_append_left _ (by rw [hst] at hin; exact hin)

theorem readMultiLineSeed_idem_aux (caseTable : Char → Char) (ok : CaseTableOK caseTable)
    (lines : List GoString) (ws : List GoString)
    (h : (readMultiLineSeed caseTable lines).1 = .ok ws) (h24 : ws.length = 24) :
    (readMultiLineSeed caseTable [Join ws " ".toList]).1 = .ok ws := by
  have h1 : " ".toList = [' '] := rfl
  have htok : tokensOf caseTable ws = ws :=
    tokensOf_tokens caseTable ws (fun w hw =>
      tokensOf_isToken caseTable ok lines w (readMultiLineSeed_mem caseTable lines ws h w hw))
  have hj := lineTokens_Join caseTable ws
  rw [htok] at hj
  rw [h1, readMultiLineSeed_single caseTable (Join ws [' ']) (by rw [hj, h24]), hj]

theorem caseTableOK_id : CaseTableOK id where
  idem := by intro c h; simp [toLowerRune]; omega
  space := by intro c _; rfl
  sep := by
    intro c h
    cases hs : isSeparator c with
    | false => simpa using hs
    | true => have := isSeparator_ascii c hs; omega

/-! ## Lemmas on the seed prompt -/

/-- How the loop can be left when it starts with fewer than 24 words. -/
theorem readLoop_exit_cases (caseTable : Char → Char) : ∀ (lines : Scanner) (st : ReaderState),
    st.allWords.length < 24 →
    ∀ site st', (readLoop caseTable lines st).1 = .brk site st' →
      (site = .reached24 ∧ 24 ≤ st'.allWords.length) ∨
      ((site = .eofWithWords ∨ site = .twoEmptyLines) ∧
        1 ≤ st'.allWords.length ∧ st'.allWords.length < 24) := by
  intro lines
  induction lines with
  | nil =>
    intro st hlt site st' h
    simp only [readLoop, scanFailed] at h
    split at h
    · cases h; right; exact ⟨Or.inl rfl, by omega, hlt⟩
    · cases h
  | cons line rest ih =>
    intro st hlt site st' h
    simp only [readLoop, loopBody_eq] at h
    by_cases hb : TrimSpace line = []
    · simp only [hb, if_true] at h
      split_ifs at h with h1 h2
      · cases h; right; exact ⟨Or.inr rfl, h1.1, hlt⟩
      · exact absurd h2.1 (by omega)
      · exact ih ⟨st.allWords, st.emptyLineCount + 1⟩ hlt site st' h
    · simp only [hb, if_false] at h
      split_ifs at h with h1
      · cases h; left; exact ⟨rfl, h1⟩
      · exact ih ⟨st.allWords ++ lineTokens caseTable line, 0⟩ (by simpa using h1) site st' h

/-- The loop is left by `return` only with no token on any line. -/
theorem readLoop_ret (caseTable : Char → Char) : ∀ (lines : Scanner) (st : ReaderState) err,
    (readLoop caseTable lines st).1 = .ret err →
      st.allWords = [] ∧ tokensOf caseTable lines = [] := by
  intro lines
  induction lines with
  | nil =>
    intro st err h
    simp only [readLoop, scanFailed] at h
    split at h
    · cases h
    · exact ⟨List.eq_nil_of_length_eq_zero (by omega), rfl⟩
  | cons line rest ih =>
    intro st err h
    simp only [readLoop, loopBody_eq] at h
    by_cases hb : TrimSpace line = []
    · have ht := lineTokens_blank caseTable line hb
      simp only [hb, if_true] at h
      split_ifs at h
      obtain ⟨h1, h2⟩ := ih _ err h
      exact ⟨h1, by simp [tokensOf, ht] at h2 ⊢; exact h2⟩
    · simp only [hb, if_false] at h
      split_ifs at h
      obtain ⟨h1, h2⟩ := ih _ err h
      simp only [List.append_eq_nil] at h1
      exact ⟨h1.1, by simp [tokensOf, h1.2] at h2 ⊢; exact h2⟩

/-- The prompt when the answer is not `y`. -/
theorem promptForSeed_user (caseTable : Char → Char) (newSeed : List GoString)
    (answer : GoString) (lines : Scanner)
    (hans : ToLower caseTable (TrimSpace answer) ≠ "y".toList) :
    promptForSeed caseTable newSeed (answer :: lines) =
      match readMultiLineSeed caseTable lines with
      | (.error err, scanner) => (.error err, scanner)
      | (.ok seed, scanner) =>
        if seed.length ≠ 24 then
          (.error (.errorf ("expected 24 words, got ".toList ++ fmtNat seed.length)), scanner)
        else (.ok seed, scanner) := by
  simp only [promptForSeed]
  rw [if_neg (by simpa using hans)]

/-- The prompt on a run of the reader that ends with fewer than 24 words. -/
theorem promptForSeed_short (caseTable : Char → Char) (newSeed : List GoString)
    (answer : GoString) (lines : Scanner) (site : BreakSite) (st : ReaderState)
    (hans : ToLower caseTable (TrimSpace answer) ≠ "y".toList)
    (hrun : (readLoop caseTable lines ⟨[], 0⟩).1 = .brk site st)
    (hn : st.allWords.length < 24) :
    (promptForSeed caseTable newSeed (answer :: lines)).1 =
      .error (.errorf ("expected 24 words, got ".toList ++ fmtNat st.allWords.length)) := by
  rw [promptForSeed_user caseTable newSeed answer lines hans]
  unfold readMultiLineSeed
  cases hr : readLoop caseTable lines ⟨[], 0⟩ with
  | mk e rest =>
    rw [hr] at hrun
    simp only at hrun
    subst hrun
    have e : (if st.allWords.length > 24 then st.allWords.take 24 else st.allWords) =
        st.allWords := if_neg (by omega)
    simp only [e]
    rw [if_pos (by omega)]

/-- The prompt on a run of the reader that reaches 24 words. -/
theorem promptForSeed_full (caseTable : Char → Char) (newSeed : List GoString)
    (answer : GoString) (lines : Scanner)
    (hans : ToLower caseTable (TrimSpace answer) ≠ "y".toList)
    (h : 24 ≤ (accumulated caseTable lines).length) :
    (promptForSeed caseTable newSeed (answer :: lines)).1 =
      .ok ((tokensOf caseTable lines).take 24) := by
  have hm := readMultiLineSeed_of_accumulated caseTable lines h
  obtain ⟨consumed, hc, hw⟩ := readLoop_words caseTable lines ⟨[], 0⟩
  have hlen : 24 ≤ (tokensOf caseTable lines).length := by
    unfold accumulated at h
    cases hr : readLoop caseTable lines ⟨[], 0⟩ with
    | mk e rest =>
      rw [hr] at hc hw h
      cases e with
      | ret err => simp at h
      | brk site st =>
        have hst := hw site st rfl
        simp only [List.nil_append] at hst
        simp only at h
        rw [hc, tokensOf, List.flatMap_append, List.length_append]
        rw [hst] at h
        simp only [tokensOf] at h
        omega
  rw [promptForSeed_user caseTable newSeed answer lines hans]
  cases hr : readMultiLineSeed caseTable lines with
  | mk res rest =>
    rw [hr] at hm
    simp only at hm
    subst hm
    simp only
    rw [if_neg (by simp; omega)]

/-! ## Lemmas on the running reader -/

theorem foldl_stepLine_none (caseTable : Char → Char) (hist : List GoString) :
    hist.foldl (stepLine caseTable) none = none := by
  induction hist with
  | nil => rfl
  | cons l ls ih => simpa [stepLine] using ih

/-- A reader that is still running after `hist` goes on from there. -/
theorem readLoop_runFrom (caseTable : Char → Char) : ∀ (hist : List GoString)
    (st0 st : ReaderState) (rest : Scanner), runFrom caseTable st0 hist = some st →
    readLoop caseTable (hist ++ rest) st0 = readLoop caseTable rest st := by
  intro hist
  induction hist with
  | nil =>
    intro st0 st rest h
    simp only [runFrom, List.foldl_nil, Option.some.injEq] at h
    subst h; rfl
  | cons l ls ih =>
    intro st0 st rest h
    simp only [runFrom, List.foldl_cons, stepLine] at h
    simp only [List.cons_append, readLoop]
    cases hb : loopBody caseTable st0 l with
    | next st1 =>
      rw [hb] at h
      exact ih st1 st rest h
    | exit e =>
      rw [hb] at h
      simp only [foldl_stepLine_none] at h
      cases h

theorem endsBlank_snoc (hist : List GoString) (l : GoString) :
    endsBlank (hist ++ [l]) = isBlank l := by
  simp [endsBlank]

theorem tokensOf_snoc (caseTable : Char → Char) (hist : List GoString) (l : GoString) :
    tokensOf caseTable (hist ++ [l]) = tokensOf caseTable hist ++ lineTokens caseTable l := by
  simp [tokensOf]

/-- The loop variables while the reader is running. -/
theorem stateAfter_inv (caseTable : Char → Char) : ∀ (hist : List GoString) (st : ReaderState),
    stateAfter caseTable hist = some st →
    st.allWords = tokensOf caseTable hist ∧ st.allWords.length < 24 ∧
      (1 ≤ st.emptyLineCount ↔ endsBlank hist = true) := by
  intro hist
  induction hist using List.reverseRecOn with
  | nil =>
    intro st h
    simp only [stateAfter, runFrom, List.foldl_nil, Option.some.injEq] at h
    subst h
    simp [tokensOf, endsBlank]
  | append_singleton hist l ih =>
    intro st h
    simp only [stateAfter, runFrom, List.foldl_append, List.foldl_cons, List.foldl_nil] at h
    cases hp : List.foldl (stepLine caseTable) (some ⟨[], 0⟩) hist with
    | none => rw [hp] at h; simp [stepLine] at h
    | some st1 =>
      obtain ⟨i1, i2, i3⟩ := ih st1 hp
      rw [hp] at h
      simp only [stepLine, loopBody_eq] at h
      rw [endsBlank_snoc, tokensOf_snoc]
      by_cases hb : TrimSpace l = []
      · have ht := lineTokens_blank caseTable l hb
        have hbl : isBlank l = true := by simp [isBlank, hb]
        simp only [hb, if_true] at h
        split_ifs at h
        simp only [Option.some.injEq] at h
        subst h
        simp [ht, hbl, i1, i2]
        rw [← i1]; exact i2
      · have hbl : isBlank l = false := by simp [isBlank, hb]
        simp only [hb, if_false] at h
        split_ifs at h with h24
        simp only [Option.some.injEq] at h
        subst h
        exact ⟨by rw [i1], Nat.lt_of_not_ge h24, by simp [hbl]⟩

theorem pass_stops (caseTable : Char → Char) (hist : List GoString) (st : ReaderState)
    (scan : Option GoString) (h : stateAfter caseTable hist = some st) :
    (pass caseTable st scan).stops = codeStops caseTable hist scan := by
  obtain ⟨i1, i2, i3⟩ := stateAfter_inv caseTable hist st h
  cases scan with
  | none => rfl
  | some l =>
    simp only [pass, loopBody_eq, codeStops, tokensOf_snoc]
    by_cases hb : TrimSpace l = []
    · have hbl : isBlank l = true := by simp [isBlank, hb]
      simp only [hb, if_true, hbl]
      rw [if_neg (show ¬ (st.allWords.length ≥ 24 ∧ st.emptyLineCount + 1 ≥ 1) by omega)]
      by_cases hc : st.allWords.length > 0 ∧ st.emptyLineCount + 1 ≥ 2
      · rw [if_pos hc]
        have : endsBlank hist = true := i3.1 (by omega)
        simp [Control.stops, this, ← i1]; omega
      · rw [if_neg hc]
        simp only [Control.stops]
        by_cases he : endsBlank hist = true
        · have := i3.2 he
          have h0 : st.allWords.length = 0 := by omega
          rw [← i1]; simp [h0]
        · simp [he]
    · have hbl : isBlank l = false := by simp [isBlank, hb]
      simp only [hb, if_false, hbl, ← i1, Bool.false_eq_true]
      split_ifs with h24
      · simp only [List.length_append] at h24
        simp [Control.stops, h24]
      · simp only [List.length_append] at h24
        simp [Control.stops]; omega

/-! ## Lemmas on key derivation and on token lists -/

theorem toBytes_salt : toBytes "TON default seed".toList = asciiBytes "TON default seed".toList := by
  decide

/-- The derivation never panics and returns the expansion of the derived key
with its tail from byte 32 on. -/
theorem DeriveKeysFromSeed_ok (lib : CryptoLib) (ws : List GoString) :
    ∃ key, lib.ed25519NewKeyFromSeed
        (lib.pbkdf2SHA512 (lib.hmacSHA512 (toBytes (Join ws [' '])) [])
          (asciiBytes "TON default seed".toList) 100000 32) = some key ∧
      key.length = 64 ∧ DeriveKeysFromSeed lib ws = some (.ok ⟨key, key.drop 32⟩) := by
  obtain ⟨key, hk, hlen⟩ := lib.newKey_length
    (lib.pbkdf2SHA512 (lib.hmacSHA512 (toBytes (Join ws [' '])) [])
      (asciiBytes "TON default seed".toList) 100000 32) (lib.pbkdf2_length _ _ _ _)
  refine ⟨key, hk, hlen, ?_⟩
  have h0 : toBytes "".toList = [] := rfl
  have h1 : " ".toList = [' '] := rfl
  simp only [DeriveKeysFromSeed, hmacNew, HMAC.Write, HMAC.Sum, h0, h1, List.append_nil,
    List.nil_append, toBytes_salt, hk]
  rw [if_neg (by omega)]

/-- The words accumulated are tokens of the input. -/
theorem accumulated_length_le (caseTable : Char → Char) (lines : List GoString) :
    (accumulated caseTable lines).length ≤ (tokensOf caseTable lines).length := by
  obtain ⟨consumed, hc, hw⟩ := readLoop_words caseTable lines ⟨[], 0⟩
  unfold accumulated
  cases hr : readLoop caseTable lines ⟨[], 0⟩ with
  | mk e rest =>
    rw [hr] at hc hw
    cases e with
    | ret err => simp
    | brk site st =>
      have hst := hw site st rfl
      simp only [List.nil_append] at hst
      simp only at hc ⊢
      rw [hst, hc]
      simp [tokensOf]

/-- Replacing separators by spaces beforehand changes nothing. -/
theorem lineTokens_congr (caseTable : Char → Char) (line line' : GoString)
    (h : List.Forall₂ (fun c c' => c' = c ∨ (isSeparator c = true ∧ c' = ' ')) line line') :
    lineTokens caseTable line' = lineTokens caseTable line := by
  have hm : line'.map (fun c => if isSeparator c then ' ' else c) =
      line.map (fun c => if isSeparator c then ' ' else c) := by
    induction h with
    | nil => rfl
    | cons hab _ ih =>
      simp only [List.map_cons, ih, List.cons.injEq, and_true]
      rcases hab with h | ⟨h1, h2⟩
      · rw [h]
      · rw [h2, h1]; rfl
  simp only [lineTokens, hm]

/-! ## Lemmas on the seed of a configuration -/

/-- The seed of a configuration collected interactively is the one the seed
prompt returned. -/
theorem CollectWalletConfig_seed (caseTable : Char → Char) (newSeed : List GoString)
    (scanner : Scanner) (cfg : Config)
    (h : CollectWalletConfig caseTable newSeed scanner = .ok cfg) :
    (promptForSeed caseTable newSeed scanner).1 = .ok cfg.Seed := by
  unfold CollectWalletConfig at h
  split at h
  · cases h
  · rename_i seed sc1 hp
    split at h
    · cases h
    · split at h
      · cases h
      · simp only at h
        split at h
        · cases h
        · simp only [Except.ok.injEq] at h
          subst h
          rw [hp]

/-- Interactive mode, user-supplied phrase: the seed has 24 words, each a token
(not empty, free of white space and separators, in lower case). -/
theorem CollectWalletConfig_user_seed (caseTable : Char → Char) (ok : CaseTableOK caseTable)
    (newSeed : List GoString) (answer : GoString) (lines : List GoString) (cfg : Config)
    (hans : ToLower caseTable (TrimSpace answer) ≠ "y".toList)
    (h : CollectWalletConfig caseTable newSeed (answer :: lines) = .ok cfg) :
    cfg.Seed.length = 24 ∧ ∀ w ∈ cfg.Seed, IsToken caseTable w := by
  have hs := CollectWalletConfig_seed caseTable newSeed (answer :: lines) cfg h
  rw [promptForSeed_user caseTable newSeed answer lines hans] at hs
  cases hr : readMultiLineSeed caseTable lines with
  | mk res rest =>
    rw [hr] at hs
    cases res with
    | error e => simp at hs
    | ok seed =>
      simp only at hs
      split_ifs at hs with hlen
      simp only [Except.ok.injEq] at hs
      subst hs
      refine ⟨by simpa using hlen, fun w hw => ?_⟩
      exact tokensOf_isToken caseTable ok lines w
        (readMultiLineSeed_mem caseTable lines cfg.Seed (by rw [hr]) w hw)

/-- Direct mode, user-supplied phrase: the seed is the seed text split on white
space; it has 24 words, none empty and none with white space. -/
theorem BuildConfig_user_seed (caseTable : Char → Char) (newSeed : List GoString)
    (flags : Flags) (cfg : Config) (hg : flags.Generate = false)
    (h : BuildConfig caseTable newSeed flags = .ok cfg) :
    cfg.Seed = Fields flags.Seed ∧ cfg.Seed.length = 24 ∧
      ∀ w ∈ cfg.Seed, w ≠ [] ∧ ∀ c ∈ w, isSpace c = false := by
  have hseed : cfg.Seed = Fields flags.Seed ∧ (Fields flags.Seed).length = 24 := by
    unfold BuildConfig at h
    simp only [hg, Bool.false_eq_true, if_false] at h
    by_cases hs : flags.Seed ≠ []
    · rw [if_pos hs] at h
      by_cases hl : (Fields flags.Seed).length ≠ 24
      · rw [if_pos hl] at h
        cases h
      · rw [if_neg hl] at h
        simp only at h
        split at h
        · cases h
        · split at h
          · cases h
          · simp only [Except.ok.injEq] at h
            subst h
            exact ⟨rfl, by simpa using hl⟩
    · rw [if_neg hs] at h
      cases h
  refine ⟨hseed.1, by rw [hseed.1]; exact hseed.2, ?_⟩
  rw [hseed.1]
  exact fun w hw => Fields_mem flags.Seed w hw

/-! ## Properties of the specification -/

/-- C1: for every word list, `DeriveKeysFromSeed` returns normally the key pair
of the reference pipeline (phrase joined by single spaces, HMAC-SHA512 keyed
with the phrase over the empty message, PBKDF2-HMAC-SHA512 with salt
`TON default seed`, 100000 iterations, 32 bytes, ed25519 expansion, public key
the bytes 32..63 of the private key); the private key has 64 bytes and the
public key 32. -/
theorem DeriveKeysFromSeed_eq_reference (lib : CryptoLib) (ws : List GoString) :
    ∃ keys, DeriveKeysFromSeed lib ws = some (.ok keys) ∧ referenceDerive lib ws = some keys ∧
      keys.Private.length = 64 ∧ keys.Public.length = 32 := by
  obtain ⟨key, hk, hlen, hd⟩ := DeriveKeysFromSeed_ok lib ws
  refine ⟨⟨key, key.drop 32⟩, hd, ?_, hlen, by simp [hlen]⟩
  simp only [referenceDerive, hk]
  rw [List.take_of_length_le (by omega)]

/-- C2: key derivation is a function of the phrase alone: two calls of
`DeriveKeysFromSeed` on identical word lists (of any length, so in particular
on a 24-word phrase) both return normally, with the same private and the same
public key. -/
theorem DeriveKeysFromSeed_pure (lib : CryptoLib) (ws₁ ws₂ : List GoString) (h : ws₁ = ws₂) :
    ∃ keys, DeriveKeysFromSeed lib ws₁ = some (.ok keys) ∧
      DeriveKeysFromSeed lib ws₂ = some (.ok keys) := by
  subst h
  obtain ⟨key, _, _, hd⟩ := DeriveKeysFromSeed_ok lib ws₁
  exact ⟨_, hd, hd⟩

theorem DeriveKeysFromSeed_pure_witness :
    sampleWords.length = 24 ∧
    ∃ keys, DeriveKeysFromSeed lengthOnlyLib sampleWords = some (.ok keys) ∧
      DeriveKeysFromSeed lengthOnlyLib sampleWords = some (.ok keys) :=
  ⟨by decide, DeriveKeysFromSeed_pure lengthOnlyLib sampleWords sampleWords rfl⟩

/-- C3: when the reader accumulates 24 or more tokens, `readMultiLineSeed`
returns the first 24 tokens, in input order, of the concatenation of the
per-line token lists (separators replaced by a space, split on white space,
lower-cased); the tokens beyond the 24th are dropped. -/
theorem readMultiLineSeed_first24 (caseTable : Char → Char) (lines : List GoString)
    (h : 24 ≤ (accumulated caseTable lines).length) :
    (readMultiLineSeed caseTable lines).1 = .ok ((tokensOf caseTable lines).take 24) ∧
      ((tokensOf caseTable lines).take 24).length = 24 := by
  have hm := readMultiLineSeed_of_accumulated caseTable lines h
  have hle := accumulated_length_le caseTable lines
  exact ⟨hm, by rw [List.length_take]; omega⟩

theorem readMultiLineSeed_first24_witness :
    24 ≤ (accumulated id sampleEntry).length ∧
    (readMultiLineSeed id sampleEntry).1 = .ok ((tokensOf id sampleEntry).take 24) ∧
      ((tokensOf id sampleEntry).take 24).length = 24 :=
  ⟨by decide, readMultiLineSeed_first24 id sampleEntry (by decide)⟩

/-- C4 (counterexample): an entry of one line with 25 words is not rejected:
`promptForSeed` returns the first 24 words as the seed phrase. -/
theorem promptForSeed_accepts_25_words :
    (tokensOf id [sampleLine25]).length = 25 ∧
    promptForSeed id [] ["n".toList, sampleLine25] = (.ok sampleWords, []) :=
  ⟨by decide, rfl⟩

/-- C4 (amended): on an entry whose lines hold 25 or more tokens, the
user-supplied path of `promptForSeed` either returns exactly the first 24
tokens (the reader accumulated 24 or more) or, the entry having ended with
`n` tokens for some `1 ≤ n ≤ 23`, fails with the count-mismatch error that
reports `n`; it never returns a phrase of 25 or more words. -/
theorem promptForSeed_25_or_more (caseTable : Char → Char) (newSeed : List GoString)
    (answer : GoString) (lines : List GoString)
    (hans : ToLower caseTable (TrimSpace answer) ≠ "y".toList)
    (h25 : 25 ≤ (tokensOf caseTable lines).length) :
    (24 ≤ (accumulated caseTable lines).length ∧
      (promptForSeed caseTable newSeed (answer :: lines)).1 =
        .ok ((tokensOf caseTable lines).take 24) ∧
      ((tokensOf caseTable lines).take 24).length = 24) ∨
    (∃ n, 1 ≤ n ∧ n ≤ 23 ∧ (accumulated caseTable lines).length = n ∧
      (promptForSeed caseTable newSeed (answer :: lines)).1 =
        .error (.errorf ("expected 24 words, got ".toList ++ fmtNat n))) := by
  by_cases hacc : 24 ≤ (accumulated caseTable lines).length
  · left
    exact ⟨hacc, promptForSeed_full caseTable newSeed answer lines hans hacc,
      by rw [List.length_take]; omega⟩
  · right
    cases hr : (readLoop caseTable lines ⟨[], 0⟩).1 with
    | ret err =>
      have := (readLoop_ret caseTable lines ⟨[], 0⟩ err hr).2
      rw [this] at h25
      simp at h25
    | brk site st =>
      have hacc' : accumulated caseTable lines = st.allWords := by
        simp only [accumulated, hr]
      rw [hacc'] at hacc ⊢
      rcases readLoop_exit_cases caseTable lines ⟨[], 0⟩ (by simp) site st hr with h | h
      · omega
      · exact ⟨st.allWords.length, h.2.1, by omega, rfl,
          promptForSeed_short caseTable newSeed answer lines site st hans hr (by omega)⟩

theorem promptForSeed_25_or_more_witness :
    ToLower id (TrimSpace "n".toList) ≠ "y".toList ∧
    25 ≤ (tokensOf id [sampleLine25]).length ∧
    ((24 ≤ (accumulated id [sampleLine25]).length ∧
      (promptForSeed id [] ("n".toList :: [sampleLine25])).1 =
        .ok ((tokensOf id [sampleLine25]).take 24) ∧
      ((tokensOf id [sampleLine25]).take 24).length = 24) ∨
    (∃ n, 1 ≤ n ∧ n ≤ 23 ∧ (accumulated id [sampleLine25]).length = n ∧
      (promptForSeed id [] ("n".toList :: [sampleLine25])).1 =
        .error (.errorf ("expected 24 words, got ".toList ++ fmtNat n)))) :=
  ⟨by decide, by decide,
    promptForSeed_25_or_more id [] "n".toList [sampleLine25] (by decide) (by decide)⟩

/-- C5: when the reader leaves its loop with `n` accumulated tokens,
`1 ≤ n ≤ 23`, it has left it at the end of the input or at the second of two
consecutive white-space-only lines, and the user-supplied path of
`promptForSeed` fails with the error `expected 24 words, got n`; no seed phrase
is returned. -/
theorem promptForSeed_count_mismatch (caseTable : Char → Char) (newSeed : List GoString)
    (answer : GoString) (lines : List GoString) (site : BreakSite) (st : ReaderState)
    (hans : ToLower caseTable (TrimSpace answer) ≠ "y".toList)
    (hrun : (readLoop caseTable lines ⟨[], 0⟩).1 = .brk site st)
    (hn : 1 ≤ st.allWords.length ∧ st.allWords.length ≤ 23) :
    (site = .eofWithWords ∨ site = .twoEmptyLines) ∧
    (promptForSeed caseTable newSeed (answer :: lines)).1 =
      .error (.errorf ("expected 24 words, got ".toList ++ fmtNat st.allWords.length)) := by
  refine ⟨?_, promptForSeed_short caseTable newSeed answer lines site st hans hrun (by omega)⟩
  rcases readLoop_exit_cases caseTable lines ⟨[], 0⟩ (by simp) site st hrun with h | h
  · omega
  · exact h.1

theorem promptForSeed_count_mismatch_witness :
    ToLower id (TrimSpace "no".toList) ≠ "y".toList ∧
    (readLoop id ["a b".toList, "c".toList, [], []] ⟨[], 0⟩).1 =
      .brk .twoEmptyLines ⟨["a".toList, "b".toList, "c".toList], 2⟩ ∧
    (promptForSeed id [] ("no".toList :: ["a b".toList, "c".toList, [], []])).1 =
      .error (.errorf "expected 24 words, got 3".toList) :=
  ⟨by decide, rfl,
    (promptForSeed_count_mismatch id [] "no".toList ["a b".toList, "c".toList, [], []]
      .twoEmptyLines ⟨["a".toList, "b".toList, "c".toList], 2⟩ (by decide) rfl
      ⟨by decide, by decide⟩).2⟩

/-- C6: replacing any occurrences of `,`, `;`, `|`, `.` or tab in a line by a
space does not change the words the reader extracts from the line; the lines
`abc,def;ghi|jkl.mno<TAB>pqr` and `abc def ghi jkl mno pqr` both yield
`[abc, def, ghi, jkl, mno, pqr]`. -/
theorem delimiter_equivalence (caseTable : Char → Char) :
    (∀ line line' : GoString,
      List.Forall₂ (fun c c' => c' = c ∨ (isSeparator c = true ∧ c' = ' ')) line line' →
      appendWords caseTable [] (Fields (replaceSeparators line')) =
        appendWords caseTable [] (Fields (replaceSeparators line))) ∧
    appendWords caseTable [] (Fields (replaceSeparators "abc,def;ghi|jkl.mno\tpqr".toList)) =
      ["abc".toList, "def".toList, "ghi".toList, "jkl".toList, "mno".toList, "pqr".toList] ∧
    appendWords caseTable [] (Fields (replaceSeparators "abc def ghi jkl mno pqr".toList)) =
      ["abc".toList, "def".toList, "ghi".toList, "jkl".toList, "mno".toList, "pqr".toList] := by
  refine ⟨?_, rfl, rfl⟩
  intro line line' h
  rw [appendWords_line, appendWords_line, lineTokens_congr caseTable line line' h]

theorem delimiter_equivalence_witness :
    List.Forall₂ (fun c c' => c' = c ∨ (isSeparator c = true ∧ c' = ' ')) "a,b;c".toList "a b;c".toList ∧
    appendWords id [] (Fields (replaceSeparators "a b;c".toList)) =
        appendWords id [] (Fields (replaceSeparators "a,b;c".toList)) :=
  ⟨by decide, (delimiter_equivalence id).1 _ _ (by decide)⟩

/-- C7: on lines without two consecutive white-space-only lines whose tokens
total exactly 24, `readMultiLineSeed` returns the same 24 words as on the
single line made by joining the lines with a space, namely the tokens of the
lines in order. -/
theorem readMultiLineSeed_lines_eq_joined (caseTable : Char → Char) (lines : List GoString)
    (hblank : noTwoBlank lines = true) (h24 : (tokensOf caseTable lines).length = 24) :
    (readMultiLineSeed caseTable lines).1 = (readMultiLineSeed caseTable [Join lines " ".toList]).1 ∧
    (readMultiLineSeed caseTable lines).1 = .ok (tokensOf caseTable lines) := by
  have h1 : " ".toList = [' '] := rfl
  have hj := lineTokens_Join caseTable lines
  have hs := readMultiLineSeed_single caseTable (Join lines [' ']) (by rw [hj, h24])
  obtain ⟨st', hst, hlen⟩ := readLoop_reaches caseTable lines ⟨[], 0⟩ (by simp) (by simp [h24])
    hblank (Or.inl rfl)
  have hacc : 24 ≤ (accumulated caseTable lines).length := by
    simp only [accumulated, hst]; exact hlen
  have hm := readMultiLineSeed_of_accumulated caseTable lines hacc
  rw [← h24, List.take_length] at hm
  rw [h1, hs, hj, hm]
  exact ⟨rfl, rfl⟩


theorem readMultiLineSeed_lines_eq_joined_witness :
    noTwoBlank threeLines = true ∧ (tokensOf id threeLines).length = 24 ∧
    (readMultiLineSeed id threeLines).1 =
      (readMultiLineSeed id [Join threeLines " ".toList]).1 ∧
    (readMultiLineSeed id threeLines).1 = .ok (tokensOf id threeLines) :=
  ⟨by decide, by decide,
    readMultiLineSeed_lines_eq_joined id threeLines (by decide) (by decide)⟩

/-- C8: with a well-behaved lower-case table, `readMultiLineSeed` is
idempotent on its output: a 24-word result `ws`, joined by single spaces and
read again as one line, is returned unchanged. -/
theorem readMultiLineSeed_idempotent (caseTable : Char → Char) (ok : CaseTableOK caseTable)
    (lines : List GoString) (ws : List GoString)
    (h : (readMultiLineSeed caseTable lines).1 = .ok ws) (h24 : ws.length = 24) :
    (readMultiLineSeed caseTable [Join ws " ".toList]).1 = .ok ws :=
  readMultiLineSeed_idem_aux caseTable ok lines ws h h24

theorem readMultiLineSeed_idempotent_witness :
    CaseTableOK id ∧ (readMultiLineSeed id sampleEntry).1 = .ok sampleWords ∧
    sampleWords.length = 24 ∧
    (readMultiLineSeed id [Join sampleWords " ".toList]).1 = .ok sampleWords :=
  ⟨caseTableOK_id, rfl, by decide,
    readMultiLineSeed_idempotent id caseTableOK_id sampleEntry sampleWords rfl (by decide)⟩

/-- C9 (counterexample): the reader, having read nothing, is given a line of
24 words followed by a further line.  It leaves the loop on the first line,
although none of the situations (a), (b), (c) holds (no white-space-only line
was seen, the input is not exhausted), and the further line stays unread. -/
theorem reader_stops_without_blank_line :
    stateAfter id [] = some ⟨[], 0⟩ ∧
    (pass id ⟨[], 0⟩ (some sampleLine)).stops = true ∧
    specStops id [] (some sampleLine) = false ∧
    readMultiLineSeed id [sampleLine, "y z".toList] = (.ok sampleWords, ["y z".toList]) :=
  ⟨rfl, by decide, by decide, rfl⟩

/-- C9 (amended): while the reader is running, after the lines `hist`, it
holds the tokens of `hist`, fewer than 24 of them, and the next scan makes it
leave the loop exactly when a line that is not white-space-only brings the
tokens to 24 or more, or a token is held and the line is the second of two
consecutive white-space-only lines, or the input is exhausted. -/
theorem reader_stops_exactly (caseTable : Char → Char) (hist : List GoString)
    (st : ReaderState) (scan : Option GoString) (h : stateAfter caseTable hist = some st) :
    (∀ rest, readLoop caseTable (hist ++ rest) ⟨[], 0⟩ = readLoop caseTable rest st) ∧
    st.allWords = tokensOf caseTable hist ∧ st.allWords.length < 24 ∧
    (pass caseTable st scan).stops = codeStops caseTable hist scan := by
  obtain ⟨i1, i2, _⟩ := stateAfter_inv caseTable hist st h
  exact ⟨fun rest => readLoop_runFrom caseTable hist ⟨[], 0⟩ st rest h, i1, i2,
    pass_stops caseTable hist st scan h⟩

theorem reader_stops_exactly_witness :
    stateAfter id ["a b".toList, []] = some ⟨["a".toList, "b".toList], 1⟩ ∧
    (pass id ⟨["a".toList, "b".toList], 1⟩ (some [])).stops =
      codeStops id ["a b".toList, []] (some []) ∧
    codeStops id ["a b".toList, []] (some []) = true :=
  ⟨rfl, (reader_stops_exactly id ["a b".toList, []] ⟨["a".toList, "b".toList], 1⟩ (some [])
    rfl).2.2.2, by decide⟩

/-- C10 (failing input): in direct mode a seed text of 24 upper-case words is
accepted and stored as it is: the resolved `Seed` has 24 tokens, and they are
not in lower case. -/
theorem BuildConfig_keeps_upper_case :
    BuildConfig id [] ⟨false, upperLine, [], [], -1, false⟩ =
      .ok ⟨Fields upperLine, MainnetGlobalID, "Mainnet".toList, .V4R2, "V4R2".toList,
        698983191⟩ ∧
    (Fields upperLine).length = 24 ∧
    (Fields upperLine).head? = some "A".toList ∧
    ToLower id "A".toList = "a".toList ∧
    (∀ w ∈ Fields upperLine, ToLower id w ≠ w) ∧
    (promptForSeed id [] ["n".toList, upperLine]).1 = .ok sampleWords :=
  ⟨rfl, by decide, by decide, by decide, by decide, rfl⟩

/-! ## Lemmas on the resolver and on the prompts -/

/-- `BuildConfig` is its seed part followed by the rest. -/
theorem BuildConfig_stages (caseTable : Char → Char) (newSeed : List GoString) (flags : Flags) :
    BuildConfig caseTable newSeed flags =
      match resolveSeed newSeed flags with
      | .error err => .error err
      | .ok seed => configWithSeed caseTable flags seed := by
  unfold BuildConfig resolveSeed configWithSeed
  rfl

/-- The network part of `BuildConfig` against the reference notion. -/
theorem resolveNetwork_spec (caseTable : Char → Char) (flags : Flags) :
    resolveNetwork caseTable flags =
      match specNetwork caseTable flags.Network with
      | some p => .ok p
      | none => .error (.errorf ("invalid network: ".toList ++ flags.Network ++
          " (use mainnet or testnet)".toList)) := by
  unfold resolveNetwork specNetwork
  by_cases h0 : flags.Network = []
  · simp [h0]
  · simp only [ne_eq, h0, not_false_eq_true, if_true, false_or]
    by_cases h1 : ToLower caseTable flags.Network = "mainnet".toList ∨
        ToLower caseTable flags.Network = "main".toList
    · simp only [h1, if_true]
    · simp only [h1, if_false]
      by_cases h2 : ToLower caseTable flags.Network = "testnet".toList ∨
          ToLower caseTable flags.Network = "test".toList
      · simp only [h2, if_true]
      · simp only [h2, if_false]

/-- The version part of `BuildConfig` against the reference notion. -/
theorem resolveVersion_spec (caseTable : Char → Char) (flags : Flags) (networkID : Int) :
    resolveVersion caseTable flags networkID =
      match specVersion caseTable flags.Version networkID with
      | some v => .ok (v, versionNameOf v, v.isV5)
      | none => .error (.errorf ("invalid version: ".toList ++ flags.Version)) := by
  unfold resolveVersion specVersion
  by_cases h0 : flags.Version = []
  · simp only [h0, ne_eq, not_true_eq_false, if_false, if_true]
    rfl
  · simp only [ne_eq, h0, not_false_eq_true, if_true, if_false]
    split_ifs <;> rfl

/-- The rest of `BuildConfig` against the reference notions. -/
theorem configWithSeed_spec (caseTable : Char → Char) (flags : Flags) (seed : List GoString) :
    configWithSeed caseTable flags seed =
      match specNetwork caseTable flags.Network with
      | none => .error (.errorf ("invalid network: ".toList ++ flags.Network ++
          " (use mainnet or testnet)".toList))
      | some (networkID, networkName) =>
        match specVersion caseTable flags.Version networkID with
        | none => .error (.errorf ("invalid version: ".toList ++ flags.Version))
        | some v =>
          .ok ⟨seed, networkID, networkName, v, versionNameOf v,
            resolveSubwallet flags v.isV5⟩ := by
  unfold configWithSeed
  rw [resolveNetwork_spec]
  cases hn : specNetwork caseTable flags.Network with
  | none => rfl
  | some p =>
    obtain ⟨networkID, networkName⟩ := p
    simp only
    rw [resolveVersion_spec]
    cases hv : specVersion caseTable flags.Version networkID with
    | none => rfl
    | some v => rfl

theorem resolveSubwallet_neg (flags : Flags) (b : Bool) (h : flags.Subwallet < 0) :
    resolveSubwallet flags b = if b then 0 else 698983191 := by
  unfold resolveSubwallet
  rw [if_neg (by omega)]
  rfl

theorem resolveSubwallet_override (flags : Flags) (b : Bool) (h0 : 0 ≤ flags.Subwallet)
    (h1 : flags.Subwallet < 2 ^ 32) :
    resolveSubwallet flags b = flags.Subwallet.toNat := by
  unfold resolveSubwallet
  rw [if_pos (by omega), Int.emod_eq_of_lt h0 h1]


theorem numeralFrom_ge (s : GoString) : ∀ n, n ≤ numeralFrom n s := by
  induction s with
  | nil => intro n; exact Nat.le_refl _
  | cons c cs ih =>
    intro n
    have := ih (n * 10 + (c.toNat - 48))
    simp only [numeralFrom, List.foldl_cons] at this ⊢
    omega

/-- The digit loop on digits only, with a value that fits 32 bits. -/
theorem parseUintLoop_ok (s0 : GoString) (s : GoString) : ∀ n,
    s.all (fun c => decide (48 ≤ c.toNat ∧ c.toNat ≤ 57)) = true →
    numeralFrom n s < 2 ^ 32 → parseUintLoop s0 s n = .ok (numeralFrom n s) := by
  induction s with
  | nil => intro n _ _; rfl
  | cons c cs ih =>
    intro n hd hv
    simp only [List.all_cons, Bool.and_eq_true, decide_eq_true_eq] at hd
    have hv' : numeralFrom (n * 10 + (c.toNat - 48)) cs < 2 ^ 32 := hv
    have hge := numeralFrom_ge cs (n * 10 + (c.toNat - 48))
    simp only [parseUintLoop]
    rw [if_pos hd.1, if_neg (by omega)]
    exact ih _ hd.2 hv'

/-- The digit loop otherwise: an error that carries the whole input. -/
theorem parseUintLoop_error (s0 : GoString) (s : GoString) : ∀ n, n < 2 ^ 32 →
    ¬ (s.all (fun c => decide (48 ≤ c.toNat ∧ c.toNat ≤ 57)) = true ∧
      numeralFrom n s < 2 ^ 32) →
    ∃ k, parseUintLoop s0 s n = .error ⟨"ParseUint".toList, s0, k⟩ := by
  induction s with
  | nil =>
    intro n hn h
    exact absurd ⟨rfl, hn⟩ h
  | cons c cs ih =>
    intro n hn h
    simp only [parseUintLoop]
    by_cases hd : 48 ≤ c.toNat ∧ c.toNat ≤ 57
    · rw [if_pos hd]
      by_cases ho : n * 10 + (c.toNat - 48) > 2 ^ 32 - 1
      · rw [if_pos ho]; exact ⟨_, rfl⟩
      · rw [if_neg ho]
        refine ih _ (by omega) ?_
        intro h2
        apply h
        refine ⟨?_, h2.2⟩
        simp only [List.all_cons, Bool.and_eq_true, decide_eq_true_eq]
        exact ⟨hd, h2.1⟩
    · rw [if_neg hd]; exact ⟨_, rfl⟩

/-- The digit loop on digits only, with a value that does not fit: a range error. -/
theorem parseUintLoop_range (s0 : GoString) (s : GoString) : ∀ n, n < 2 ^ 32 →
    s.all (fun c => decide (48 ≤ c.toNat ∧ c.toNat ≤ 57)) = true →
    2 ^ 32 ≤ numeralFrom n s →
    parseUintLoop s0 s n = .error ⟨"ParseUint".toList, s0, .ErrRange⟩ := by
  induction s with
  | nil =>
    intro n hn _ h
    simp only [numeralFrom, List.foldl_nil] at h
    omega
  | cons c cs ih =>
    intro n hn hd h
    simp only [List.all_cons, Bool.and_eq_true, decide_eq_true_eq] at hd
    simp only [parseUintLoop]
    rw [if_pos hd.1]
    by_cases ho : n * 10 + (c.toNat - 48) > 2 ^ 32 - 1
    · rw [if_pos ho]
    · rw [if_neg ho]
      exact ih _ (by omega) hd.2 h

/-- `strconv.ParseUint(s, 10, 32)` against the reference notions. -/
theorem ParseUint_spec (s : GoString) :
    (isNumeral s = true → numeralValue s < 2 ^ 32 → ParseUint s = .ok (numeralValue s)) ∧
    (isNumeral s = true → 2 ^ 32 ≤ numeralValue s →
      ParseUint s = .error ⟨"ParseUint".toList, s, .ErrRange⟩) ∧
    (¬ (isNumeral s = true ∧ numeralValue s < 2 ^ 32) →
      ∃ k, ParseUint s = .error ⟨"ParseUint".toList, s, k⟩) := by
  unfold ParseUint isNumeral numeralValue
  refine ⟨?_, ?_, ?_⟩
  · intro h hv
    simp only [Bool.and_eq_true, decide_eq_true_eq] at h
    rw [if_neg h.1]
    exact parseUintLoop_ok s s 0 h.2 hv
  · intro h hv
    simp only [Bool.and_eq_true, decide_eq_true_eq] at h
    rw [if_neg h.1]
    exact parseUintLoop_range s s 0 (by norm_num) h.2 hv
  · intro h
    by_cases he : s = []
    · rw [if_pos he]; exact ⟨_, rfl⟩
    · rw [if_neg he]
      refine parseUintLoop_error s s 0 (by norm_num) ?_
      intro h2
      apply h
      simp only [Bool.and_eq_true, decide_eq_true_eq]
      exact ⟨⟨he, h2.1⟩, h2.2⟩

theorem promptForNetwork_ok (scanner rest : Scanner) (networkID : Int) (networkName : GoString)
    (h : promptForNetwork scanner = (.ok (networkID, networkName), rest)) :
    (networkID = MainnetGlobalID ∧ networkName = "Mainnet".toList) ∨
    (networkID = TestnetGlobalID ∧ networkName = "Testnet".toList) := by
  unfold promptForNetwork at h
  cases scanner with
  | nil => simp at h
  | cons line sc =>
    simp only at h
    split_ifs at h <;> simp only [Prod.mk.injEq, Except.ok.injEq] at h
    · exact Or.inl ⟨h.1.1.symm, h.1.2.symm⟩
    · exact Or.inr ⟨h.1.1.symm, h.1.2.symm⟩
    · exact Or.inl ⟨h.1.1.symm, h.1.2.symm⟩

theorem promptForVersion_ok (scanner rest : Scanner) (networkID : Int) (v : VersionConfig)
    (versionName choice : GoString)
    (h : promptForVersion scanner networkID = (.ok (v, versionName, choice), rest)) :
    (∀ n, v.carriedID = some n → n = networkID) ∧ versionName = versionNameOf v ∧
    v.isV5 = (decide (choice = "5".toList) || decide (choice = "6".toList)) ∧
    ∃ line, scanner = line :: rest ∧
      (choice = TrimSpace line ∨ (choice = "4".toList ∧ v = .V4R2 ∧
        TrimSpace line ∉ ["1".toList, "2".toList, "3".toList, "4".toList, "5".toList,
          "6".toList])) := by
  unfold promptForVersion at h
  cases scanner with
  | nil => simp at h
  | cons line sc =>
    simp only at h
    split_ifs at h with h1 h2 h3 h4 h5 h6 <;>
      simp only [Prod.mk.injEq, Except.ok.injEq] at h <;>
      obtain ⟨⟨rfl, rfl, rfl⟩, rfl⟩ := h
    · exact ⟨by simp [VersionConfig.carriedID], rfl, by rw [h1]; decide, line, rfl, Or.inl rfl⟩
    · exact ⟨by simp [VersionConfig.carriedID], rfl, by rw [h2]; decide, line, rfl, Or.inl rfl⟩
    · exact ⟨by simp [VersionConfig.carriedID], rfl, by rw [h3]; decide, line, rfl, Or.inl rfl⟩
    · exact ⟨by simp [VersionConfig.carriedID], rfl, by rw [h4]; decide, line, rfl, Or.inl rfl⟩
    · exact ⟨by simp [VersionConfig.carriedID], rfl, by rw [h5]; rfl, line, rfl, Or.inl rfl⟩
    · exact ⟨by simp [VersionConfig.carriedID], rfl, by rw [h6]; rfl, line, rfl, Or.inl rfl⟩
    · refine ⟨by simp [VersionConfig.carriedID], rfl, by decide, line, rfl, Or.inr ⟨rfl, rfl, ?_⟩⟩
      simp only [List.mem_cons, List.mem_singleton, List.not_mem_nil, or_false, not_or]
      exact ⟨h1, h2, h3, h4, h5, h6⟩

/-- The shape of a configuration `BuildConfig` returns. -/
theorem BuildConfig_ok_shape (caseTable : Char → Char) (newSeed : List GoString) (flags : Flags)
    (cfg : Config) (h : BuildConfig caseTable newSeed flags = .ok cfg) :
    ∃ seed networkID networkName v, resolveSeed newSeed flags = .ok seed ∧
      specNetwork caseTable flags.Network = some (networkID, networkName) ∧
      specVersion caseTable flags.Version networkID = some v ∧
      cfg = ⟨seed, networkID, networkName, v, versionNameOf v,
        resolveSubwallet flags v.isV5⟩ := by
  rw [BuildConfig_stages] at h
  cases hs : resolveSeed newSeed flags with
  | error e => rw [hs] at h; cases h
  | ok seed =>
    rw [hs] at h
    simp only at h
    rw [configWithSeed_spec] at h
    cases hn : specNetwork caseTable flags.Network with
    | none => rw [hn] at h; cases h
    | some p =>
      obtain ⟨networkID, networkName⟩ := p
      rw [hn] at h
      simp only at h
      cases hv : specVersion caseTable flags.Version networkID with
      | none => rw [hv] at h; cases h
      | some v =>
        rw [hv] at h
        simp only [Except.ok.injEq] at h
        exact ⟨seed, networkID, networkName, v, rfl, rfl, hv, h.symm⟩

/-- The prompts behind a configuration collected interactively. -/
theorem CollectWalletConfig_ok_shape (caseTable : Char → Char) (newSeed : List GoString)
    (scanner : Scanner) (cfg : Config)
    (h : CollectWalletConfig caseTable newSeed scanner = .ok cfg) :
    ∃ sc1 sc2 sc3 sc4 choice,
      promptForSeed caseTable newSeed scanner = (.ok cfg.Seed, sc1) ∧
      promptForNetwork sc1 = (.ok (cfg.NetworkGlobalID, cfg.NetworkName), sc2) ∧
      promptForVersion sc2 cfg.NetworkGlobalID =
        (.ok (cfg.Version, cfg.VersionName, choice), sc3) ∧
      promptForSubwallet sc3 (decide (choice = "5".toList) || decide (choice = "6".toList)) =
        (.ok cfg.SubwalletID, sc4) := by
  unfold CollectWalletConfig at h
  split at h
  · cases h
  · rename_i seed sc1 hp
    split at h
    · cases h
    · rename_i networkID networkName sc2 hn
      split at h
      · cases h
      · rename_i version versionName versionChoice sc3 hv
        simp only at h
        split at h
        · cases h
        · rename_i subwalletID sc4 hsub
          simp only [Except.ok.injEq] at h
          subst h
          exact ⟨sc1, sc2, sc3, sc4, versionChoice, hp, hn, hv, hsub⟩

/-- The subwallet prompt on a white-space-only line. -/
theorem promptForSubwallet_blank (line : GoString) (rest : Scanner) (v5 : Bool)
    (h : TrimSpace line = []) :
    promptForSubwallet (line :: rest) v5 = (.ok (if v5 then 0 else 698983191), rest) := by
  simp only [promptForSubwallet, h, if_true]
  cases v5 <;> rfl

theorem promptForNetwork_cons (line : GoString) (sc : Scanner) :
    ∃ networkID networkName, promptForNetwork (line :: sc) = (.ok (networkID, networkName), sc) := by
  simp only [promptForNetwork]
  split_ifs
  · exact ⟨_, _, rfl⟩
  · exact ⟨_, _, rfl⟩
  · exact ⟨_, _, rfl⟩

theorem promptForVersion_cons (line : GoString) (sc : Scanner) (networkID : Int) :
    ∃ v versionName choice,
      promptForVersion (line :: sc) networkID = (.ok (v, versionName, choice), sc) ∧
      v.isV5 = (decide (choice = "5".toList) || decide (choice = "6".toList)) ∧
      (v.isV5 = true ↔ TrimSpace line = "5".toList ∨ TrimSpace line = "6".toList) ∧
      (TrimSpace line ∉ ["1".toList, "2".toList, "3".toList, "4".toList, "5".toList,
        "6".toList] → v = .V4R2) := by
  simp only [promptForVersion]
  split_ifs with h1 h2 h3 h4 h5 h6
  · exact ⟨_, _, _, rfl, by rw [h1]; rfl, by rw [h1]; decide, by simp [h1]⟩
  · exact ⟨_, _, _, rfl, by rw [h2]; rfl, by rw [h2]; decide, by simp [h2]⟩
  · exact ⟨_, _, _, rfl, by rw [h3]; rfl, by rw [h3]; decide, by simp [h3]⟩
  · exact ⟨_, _, _, rfl, by rw [h4]; rfl, by rw [h4]; decide, by simp [h4]⟩
  · exact ⟨_, _, _, rfl, by rw [h5]; rfl, by rw [h5]; simp [VersionConfig.isV5], by simp [h5]⟩
  · exact ⟨_, _, _, rfl, by rw [h6]; rfl, by rw [h6]; simp [VersionConfig.isV5], by simp [h6]⟩
  · refine ⟨_, _, _, rfl, by decide, ?_, fun _ => rfl⟩
    constructor
    · intro h; cases h
    · rintro (h | h)
      · exact absurd h h5
      · exact absurd h h6

/-- A subwallet value of `2^32 + 7` is kept modulo `2^32` by the conversion
`uint32(flags.Subwallet)`: the configuration has subwallet id 7. -/
theorem BuildConfig_subwallet_wraps :
    BuildConfig id [] ⟨false, sampleLine, [], [], 4294967303, false⟩ =
      .ok ⟨Fields sampleLine, MainnetGlobalID, "Mainnet".toList, .V4R2, "V4R2".toList, 7⟩ :=
  rfl

/-! ## Properties of the resolver and of the prompts -/

/-- C11: in direct mode without generate-new, the seed part of `BuildConfig`
succeeds exactly when the seed text splits on white space into 24 words;
`BuildConfig` then goes on with those 24 words, in order, as the seed.  With an
empty seed text it fails with `either --generate or --seed must be provided`,
and with a non-empty seed text of `n ≠ 24` words it fails with
`seed phrase must contain exactly 24 words, got n`. -/
theorem BuildConfig_seed_validation (caseTable : Char → Char) (newSeed : List GoString)
    (flags : Flags) (hg : flags.Generate = false) :
    ((∃ seed, resolveSeed newSeed flags = .ok seed) ↔ (Fields flags.Seed).length = 24) ∧
    ((Fields flags.Seed).length = 24 →
      BuildConfig caseTable newSeed flags = configWithSeed caseTable flags (Fields flags.Seed)) ∧
    (∀ cfg, BuildConfig caseTable newSeed flags = .ok cfg →
      cfg.Seed = Fields flags.Seed ∧ cfg.Seed.length = 24) ∧
    (flags.Seed = [] → BuildConfig caseTable newSeed flags =
      .error (.errorf "either --generate or --seed must be provided".toList)) ∧
    (flags.Seed ≠ [] → (Fields flags.Seed).length ≠ 24 →
      BuildConfig caseTable newSeed flags =
        .error (.errorf ("seed phrase must contain exactly 24 words, got ".toList ++
          fmtNat (Fields flags.Seed).length))) := by
  have hnil : Fields ([] : GoString) = [] := rfl
  refine ⟨?_, ?_, ?_, ?_, ?_⟩
  · unfold resolveSeed
    simp only [hg, Bool.false_eq_true, if_false]
    by_cases hs : flags.Seed = []
    · simp [hs, hnil]
    · by_cases hl : (Fields flags.Seed).length = 24
      · simp [hs, hl]
      · simp [hs, hl]
  · intro hl
    have hs : flags.Seed ≠ [] := by
      intro hs; rw [hs, hnil] at hl; simp at hl
    rw [BuildConfig_stages]
    simp [resolveSeed, hg, hs, hl]
  · intro cfg h
    obtain ⟨h1, h2, _⟩ := BuildConfig_user_seed caseTable newSeed flags cfg hg h
    exact ⟨h1, h2⟩
  · intro hs
    rw [BuildConfig_stages]
    simp [resolveSeed, hg, hs]
  · intro hs hl
    rw [BuildConfig_stages]
    simp [resolveSeed, hg, hs, hl]

theorem BuildConfig_seed_validation_witness :
    (Fields sampleLine).length = 24 ∧
    BuildConfig id [] ⟨false, sampleLine, [], [], -1, false⟩ =
      configWithSeed id ⟨false, sampleLine, [], [], -1, false⟩ (Fields sampleLine) ∧
    BuildConfig id [] ⟨false, "a b".toList, [], [], -1, false⟩ =
      .error (.errorf "seed phrase must contain exactly 24 words, got 2".toList) :=
  ⟨by decide,
    (BuildConfig_seed_validation id [] ⟨false, sampleLine, [], [], -1, false⟩ rfl).2.1
      (by decide),
    (BuildConfig_seed_validation id [] ⟨false, "a b".toList, [], [], -1, false⟩ rfl).2.2.2.2
      (by decide) (by decide)⟩

/-- C12 (counterexample): with generate-new true and a non-empty seed text,
`BuildConfig` does not fail: it returns a configuration whose seed is the
generated phrase. -/
theorem BuildConfig_generate_with_seed_text :
    BuildConfig id sampleWords ⟨true, "x y".toList, [], [], -1, false⟩ =
      .ok ⟨sampleWords, MainnetGlobalID, "Mainnet".toList, .V4R2, "V4R2".toList, 698983191⟩ :=
  rfl

/-- C12 (amended): with generate-new true the seed part of `BuildConfig` never
fails and the seed text plays no role: `BuildConfig` goes on with the generated
phrase as the seed, and gives the same result for every seed text. -/
theorem BuildConfig_generate_wins (caseTable : Char → Char) (newSeed : List GoString)
    (flags : Flags) (hg : flags.Generate = true) :
    BuildConfig caseTable newSeed flags = configWithSeed caseTable flags newSeed ∧
    (∀ cfg, BuildConfig caseTable newSeed flags = .ok cfg → cfg.Seed = newSeed) ∧
    (∀ text : GoString, BuildConfig caseTable newSeed
        ⟨flags.Generate, text, flags.Network, flags.Version, flags.Subwallet, flags.SimpleMode⟩ =
      BuildConfig caseTable newSeed flags) := by
  have h1 : BuildConfig caseTable newSeed flags = configWithSeed caseTable flags newSeed := by
    rw [BuildConfig_stages]
    simp [resolveSeed, hg]
  refine ⟨h1, ?_, ?_⟩
  · intro cfg h
    obtain ⟨seed, _, _, _, hs, _, _, hc⟩ := BuildConfig_ok_shape caseTable newSeed flags cfg h
    simp only [resolveSeed, hg, if_true, Except.ok.injEq] at hs
    rw [hc, hs]
  · intro text
    rw [h1, BuildConfig_stages]
    simp only [resolveSeed, hg, if_true]
    rfl

theorem BuildConfig_generate_wins_witness :
    BuildConfig id sampleWords ⟨true, "x y".toList, [], [], -1, false⟩ =
      configWithSeed id ⟨true, "x y".toList, [], [], -1, false⟩ sampleWords :=
  (BuildConfig_generate_wins id sampleWords ⟨true, "x y".toList, [], [], -1, false⟩ rfl).1

/-- C13: in a configuration `BuildConfig` returns, the subwallet id is, without
override (`Subwallet = -1`), 698983191 for V3R1, V3R2, V4R1, V4R2 and 0 for the
two V5 variants, and with an override `0 ≤ n < 2^32` it is `n`, whatever the
version. -/
theorem BuildConfig_subwallet_policy (caseTable : Char → Char) (newSeed : List GoString)
    (flags : Flags) (cfg : Config) (h : BuildConfig caseTable newSeed flags = .ok cfg) :
    (flags.Subwallet = -1 →
      match cfg.Version with
      | .V3R1 | .V3R2 | .V4R1 | .V4R2 => cfg.SubwalletID = 698983191
      | .ConfigV5R1Beta _ | .ConfigV5R1Final _ => cfg.SubwalletID = 0) ∧
    (0 ≤ flags.Subwallet → flags.Subwallet < 2 ^ 32 →
      (cfg.SubwalletID : Int) = flags.Subwallet) := by
  obtain ⟨seed, networkID, networkName, v, _, _, _, hc⟩ :=
    BuildConfig_ok_shape caseTable newSeed flags cfg h
  subst hc
  refine ⟨?_, ?_⟩
  · intro hs
    have := resolveSubwallet_neg flags v.isV5 (by omega)
    simp only
    cases v <;> simpa [VersionConfig.isV5] using this
  · intro h0 h1
    simp only
    rw [resolveSubwallet_override flags v.isV5 h0 h1]
    exact Int.toNat_of_nonneg h0

theorem BuildConfig_subwallet_policy_witness :
    BuildConfig id [] ⟨false, sampleLine, [], "v5".toList, 42, false⟩ =
      .ok ⟨Fields sampleLine, MainnetGlobalID, "Mainnet".toList,
        .ConfigV5R1Final MainnetGlobalID, "V5R1 Final".toList, 42⟩ ∧
    ((42 : Nat) : Int) = 42 :=
  ⟨rfl, (BuildConfig_subwallet_policy id [] ⟨false, sampleLine, [], "v5".toList, 42, false⟩
    ⟨Fields sampleLine, MainnetGlobalID, "Mainnet".toList,
      .ConfigV5R1Final MainnetGlobalID, "V5R1 Final".toList, 42⟩ rfl).2
    (by decide) (by decide)⟩

/-- C14 (counterexample): a subwallet value of `-5` is not rejected:
`BuildConfig` returns a configuration with the default subwallet id. -/
theorem BuildConfig_negative_subwallet_accepted :
    BuildConfig id [] ⟨false, sampleLine, [], [], -5, false⟩ =
      .ok ⟨Fields sampleLine, MainnetGlobalID, "Mainnet".toList, .V4R2, "V4R2".toList,
        698983191⟩ :=
  rfl

/-- C14 (amended): a negative subwallet value is treated as no override:
`BuildConfig` gives the same result as for the absent marker `-1`, and a
configuration it returns has the default subwallet id of its version family. -/
theorem BuildConfig_negative_subwallet (caseTable : Char → Char) (newSeed : List GoString)
    (flags : Flags) (hneg : flags.Subwallet < 0) :
    BuildConfig caseTable newSeed flags =
      BuildConfig caseTable newSeed
        ⟨flags.Generate, flags.Seed, flags.Network, flags.Version, -1, flags.SimpleMode⟩ ∧
    (∀ cfg, BuildConfig caseTable newSeed flags = .ok cfg →
      cfg.SubwalletID = familyDefault cfg.Version) := by
  refine ⟨?_, ?_⟩
  · have hsub : ∀ b, resolveSubwallet flags b =
        resolveSubwallet
          ⟨flags.Generate, flags.Seed, flags.Network, flags.Version, -1, flags.SimpleMode⟩ b := by
      intro b
      rw [resolveSubwallet_neg flags b hneg, resolveSubwallet_neg _ b (by simp)]
    rw [BuildConfig_stages, BuildConfig_stages]
    have hseed : resolveSeed newSeed
        ⟨flags.Generate, flags.Seed, flags.Network, flags.Version, -1, flags.SimpleMode⟩ =
        resolveSeed newSeed flags := rfl
    rw [hseed]
    cases resolveSeed newSeed flags with
    | error e => rfl
    | ok seed =>
      simp only
      rw [configWithSeed_spec, configWithSeed_spec]
      simp only [hsub]
  · intro cfg h
    obtain ⟨seed, networkID, networkName, v, _, _, _, hc⟩ :=
      BuildConfig_ok_shape caseTable newSeed flags cfg h
    subst hc
    simp only [familyDefault]
    exact resolveSubwallet_neg flags v.isV5 hneg

theorem BuildConfig_negative_subwallet_witness :
    BuildConfig id [] ⟨false, sampleLine, [], [], -5, false⟩ =
      BuildConfig id [] ⟨false, sampleLine, [], [], -1, false⟩ :=
  (BuildConfig_negative_subwallet id [] ⟨false, sampleLine, [], [], -5, false⟩ (by decide)).1

/-- C15: on a line, `promptForSubwallet` returns the default of the version
family when the trimmed line is empty, returns `n` when the trimmed line is an
unsigned decimal numeral of value `n < 2^32`, and in every other case fails
with the error `invalid subwallet ID: ...` around the `strconv` error for the
trimmed line; in each case exactly that one line has been read. -/
theorem promptForSubwallet_cases (line : GoString) (rest : Scanner) (v5 : Bool) :
    (TrimSpace line = [] →
      promptForSubwallet (line :: rest) v5 = (.ok (if v5 then 0 else 698983191), rest)) ∧
    (isNumeral (TrimSpace line) = true → numeralValue (TrimSpace line) < 2 ^ 32 →
      promptForSubwallet (line :: rest) v5 = (.ok (numeralValue (TrimSpace line)), rest)) ∧
    (TrimSpace line ≠ [] →
      ¬ (isNumeral (TrimSpace line) = true ∧ numeralValue (TrimSpace line) < 2 ^ 32) →
      ∃ k, promptForSubwallet (line :: rest) v5 =
        (.error (.errorfNum "invalid subwallet ID: ".toList
          ⟨"ParseUint".toList, TrimSpace line, k⟩), rest)) := by
  obtain ⟨p1, _, p3⟩ := ParseUint_spec (TrimSpace line)
  refine ⟨?_, ?_, ?_⟩
  · intro h
    simp only [promptForSubwallet, h, if_true]
    cases v5 <;> rfl
  · intro hnum hv
    have hne : TrimSpace line ≠ [] := by
      intro h; rw [h] at hnum; simp [isNumeral] at hnum
    simp only [promptForSubwallet]
    rw [if_neg hne, p1 hnum hv]
    simp only
    rw [Nat.mod_eq_of_lt hv]
  · intro hne hbad
    obtain ⟨k, hk⟩ := p3 hbad
    refine ⟨k, ?_⟩
    simp only [promptForSubwallet]
    rw [if_neg hne, hk]

theorem promptForSubwallet_cases_witness :
    promptForSubwallet ["  ".toList, "x".toList] true = (.ok 0, ["x".toList]) ∧
    promptForSubwallet [" 0042 ".toList, "x".toList] false = (.ok 42, ["x".toList]) ∧
    (∃ k, promptForSubwallet ["+5".toList, "x".toList] false =
      (.error (.errorfNum "invalid subwallet ID: ".toList
        ⟨"ParseUint".toList, "+5".toList, k⟩), ["x".toList])) :=
  ⟨(promptForSubwallet_cases "  ".toList ["x".toList] true).1 (by decide),
    (promptForSubwallet_cases " 0042 ".toList ["x".toList] false).2.1 (by decide) (by decide),
    (promptForSubwallet_cases "+5".toList ["x".toList] false).2.2 (by decide) (by decide)⟩

/-- C16: with a valid seed, `BuildConfig` resolves the network as the network
text denotes it (Mainnet for the empty text, `mainnet`, `main`; Testnet for
`testnet`, `test`; compared in lower case) and goes on with the version part;
for every other network text it fails with
`invalid network: <text> (use mainnet or testnet)`. -/
theorem BuildConfig_network (caseTable : Char → Char) (newSeed : List GoString) (flags : Flags)
    (seed : List GoString) (hseed : resolveSeed newSeed flags = .ok seed) :
    (∀ networkID networkName,
      specNetwork caseTable flags.Network = some (networkID, networkName) →
      BuildConfig caseTable newSeed flags =
        match resolveVersion caseTable flags networkID with
        | .error err => .error err
        | .ok (v, versionName, v5) =>
          .ok ⟨seed, networkID, networkName, v, versionName, resolveSubwallet flags v5⟩) ∧
    (specNetwork caseTable flags.Network = none →
      BuildConfig caseTable newSeed flags =
        .error (.errorf ("invalid network: ".toList ++ flags.Network ++
          " (use mainnet or testnet)".toList))) ∧
    (∀ cfg, BuildConfig caseTable newSeed flags = .ok cfg →
      specNetwork caseTable flags.Network = some (cfg.NetworkGlobalID, cfg.NetworkName)) := by
  refine ⟨?_, ?_, ?_⟩
  · intro networkID networkName hn
    rw [BuildConfig_stages, hseed]
    simp only [configWithSeed]
    rw [resolveNetwork_spec, hn]
  · intro hn
    rw [BuildConfig_stages, hseed]
    simp only [configWithSeed]
    rw [resolveNetwork_spec, hn]
  · intro cfg h
    obtain ⟨_, networkID, networkName, v, _, hn, _, hc⟩ :=
      BuildConfig_ok_shape caseTable newSeed flags cfg h
    rw [hc]; exact hn

theorem BuildConfig_network_witness :
    resolveSeed [] ⟨false, sampleLine, "TestNet".toList, [], -1, false⟩ =
      .ok (Fields sampleLine) ∧
    specNetwork id "TestNet".toList = some (TestnetGlobalID, "Testnet".toList) ∧
    specNetwork id "moon".toList = none ∧
    BuildConfig id [] ⟨false, sampleLine, "moon".toList, [], -1, false⟩ =
      .error (.errorf "invalid network: moon (use mainnet or testnet)".toList) :=
  ⟨rfl, by decide, by decide,
    (BuildConfig_network id [] ⟨false, sampleLine, "moon".toList, [], -1, false⟩
      (Fields sampleLine) rfl).2.1 (by decide)⟩

/-- C17: with a valid seed and a valid network, `BuildConfig` resolves the
version the version text denotes (V4R2 for the empty text, otherwise by token
or alias in lower case, the V5 variants carrying the resolved network id) with
the display name of that version, and fails with `invalid version: <text>` for
every other text. -/
theorem BuildConfig_version (caseTable : Char → Char) (newSeed : List GoString) (flags : Flags)
    (seed : List GoString) (networkID : Int) (networkName : GoString)
    (hseed : resolveSeed newSeed flags = .ok seed)
    (hnet : specNetwork caseTable flags.Network = some (networkID, networkName)) :
    BuildConfig caseTable newSeed flags =
      (match specVersion caseTable flags.Version networkID with
      | some v =>
        .ok ⟨seed, networkID, networkName, v, versionNameOf v, resolveSubwallet flags v.isV5⟩
      | none => .error (.errorf ("invalid version: ".toList ++ flags.Version))) ∧
    (∀ cfg, BuildConfig caseTable newSeed flags = .ok cfg →
      specVersion caseTable flags.Version networkID = some cfg.Version ∧
      cfg.VersionName = versionNameOf cfg.Version) := by
  have h1 : BuildConfig caseTable newSeed flags =
      (match specVersion caseTable flags.Version networkID with
      | some v =>
        .ok ⟨seed, networkID, networkName, v, versionNameOf v, resolveSubwallet flags v.isV5⟩
      | none => .error (.errorf ("invalid version: ".toList ++ flags.Version))) := by
    rw [BuildConfig_stages, hseed]
    simp only
    rw [configWithSeed_spec, hnet]
    simp only
    cases specVersion caseTable flags.Version networkID <;> rfl
  refine ⟨h1, ?_⟩
  intro cfg h
  rw [h1] at h
  cases hv : specVersion caseTable flags.Version networkID with
  | none => rw [hv] at h; cases h
  | some v =>
    rw [hv] at h
    simp only [Except.ok.injEq] at h
    subst h
    exact ⟨rfl, rfl⟩

theorem BuildConfig_version_witness :
    specVersion id "V5Beta".toList TestnetGlobalID = some (.ConfigV5R1Beta TestnetGlobalID) ∧
    specVersion id "v9".toList TestnetGlobalID = none ∧
    BuildConfig id [] ⟨false, sampleLine, "test".toList, "V5Beta".toList, -1, false⟩ =
      .ok ⟨Fields sampleLine, TestnetGlobalID, "Testnet".toList,
        .ConfigV5R1Beta TestnetGlobalID, "V5R1 Beta".toList, 0⟩ :=
  ⟨by decide, by decide,
    (BuildConfig_version id [] ⟨false, sampleLine, "test".toList, "V5Beta".toList, -1, false⟩
      (Fields sampleLine) TestnetGlobalID "Testnet".toList rfl (by decide)).1⟩

/-- C18: in a configuration returned by `BuildConfig` or by
`CollectWalletConfig`, a V5 version carries the configuration's network global
id, and the network name is the name of the network global id. -/
theorem config_network_consistent (caseTable : Char → Char) (newSeed : List GoString)
    (flags : Flags) (scanner : Scanner) (cfg : Config)
    (h : BuildConfig caseTable newSeed flags = .ok cfg ∨
      CollectWalletConfig caseTable newSeed scanner = .ok cfg) :
    (∀ n, cfg.Version = .ConfigV5R1Beta n ∨ cfg.Version = .ConfigV5R1Final n →
      n = cfg.NetworkGlobalID) ∧
    ((cfg.NetworkGlobalID = MainnetGlobalID ∧ cfg.NetworkName = "Mainnet".toList) ∨
      (cfg.NetworkGlobalID = TestnetGlobalID ∧ cfg.NetworkName = "Testnet".toList)) := by
  have key : (∀ n, cfg.Version.carriedID = some n → n = cfg.NetworkGlobalID) ∧
      ((cfg.NetworkGlobalID = MainnetGlobalID ∧ cfg.NetworkName = "Mainnet".toList) ∨
        (cfg.NetworkGlobalID = TestnetGlobalID ∧ cfg.NetworkName = "Testnet".toList)) := by
    rcases h with h | h
    · obtain ⟨seed, networkID, networkName, v, _, hn, hv, hc⟩ :=
        BuildConfig_ok_shape caseTable newSeed flags cfg h
      subst hc
      refine ⟨?_, ?_⟩
      · intro n hcar
        simp only at hcar ⊢
        unfold specVersion at hv
        split_ifs at hv <;> simp only [Option.some.injEq] at hv <;> subst hv <;>
          simp [VersionConfig.carriedID] at hcar <;> exact hcar.symm
      · simp only
        unfold specNetwork at hn
        split_ifs at hn <;> simp only [Option.some.injEq, Prod.mk.injEq] at hn
        · exact Or.inl ⟨hn.1.symm, hn.2.symm⟩
        · exact Or.inr ⟨hn.1.symm, hn.2.symm⟩
    · obtain ⟨sc1, sc2, sc3, sc4, choice, _, hn, hv, _⟩ :=
        CollectWalletConfig_ok_shape caseTable newSeed scanner cfg h
      exact ⟨(promptForVersion_ok sc2 sc3 _ _ _ _ hv).1, promptForNetwork_ok sc1 sc2 _ _ hn⟩
  refine ⟨?_, key.2⟩
  intro n hn
  apply key.1
  rcases hn with hn | hn <;> rw [hn] <;> rfl

theorem config_network_consistent_witness :
    BuildConfig id [] ⟨false, sampleLine, "test".toList, "v5".toList, -1, false⟩ =
      .ok ⟨Fields sampleLine, TestnetGlobalID, "Testnet".toList,
        .ConfigV5R1Final TestnetGlobalID, "V5R1 Final".toList, 0⟩ ∧
    (∀ n, VersionConfig.ConfigV5R1Final TestnetGlobalID = .ConfigV5R1Beta n ∨
        VersionConfig.ConfigV5R1Final TestnetGlobalID = .ConfigV5R1Final n →
      n = TestnetGlobalID) :=
  ⟨rfl, (config_network_consistent id [] ⟨false, sampleLine, "test".toList, "v5".toList, -1, false⟩
    [] ⟨Fields sampleLine, TestnetGlobalID, "Testnet".toList,
        .ConfigV5R1Final TestnetGlobalID, "V5R1 Final".toList, 0⟩ (Or.inl (by rfl))).1⟩

/-- C19: with valid seeds, the error for an unknown network text `a` is
`invalid network: a (use mainnet or testnet)` and the error for an unknown
version text `b` (network valid) is `invalid version: b`; the two messages
differ, each starts with the name of its field, and each contains the offending
text. -/
theorem BuildConfig_distinct_errors (caseTable : Char → Char) (newSeed : List GoString)
    (flagsA flagsB : Flags) (seedA seedB : List GoString) (networkID : Int)
    (networkName : GoString)
    (hseedA : resolveSeed newSeed flagsA = .ok seedA)
    (hseedB : resolveSeed newSeed flagsB = .ok seedB)
    (hA : specNetwork caseTable flagsA.Network = none)
    (hBnet : specNetwork caseTable flagsB.Network = some (networkID, networkName))
    (hB : specVersion caseTable flagsB.Version networkID = none) :
    ∃ msgA msgB,
      BuildConfig caseTable newSeed flagsA = .error (.errorf msgA) ∧
      BuildConfig caseTable newSeed flagsB = .error (.errorf msgB) ∧
      msgA ≠ msgB ∧
      "invalid network: ".toList <+: msgA ∧ "invalid version: ".toList <+: msgB ∧
      ¬ "invalid version: ".toList <+: msgA ∧ ¬ "invalid network: ".toList <+: msgB ∧
      flagsA.Network <:+: msgA ∧ flagsB.Version <:+: msgB := by
  refine ⟨"invalid network: ".toList ++ flagsA.Network ++ " (use mainnet or testnet)".toList,
    "invalid version: ".toList ++ flagsB.Version, ?_, ?_, ?_, ?_, ?_, ?_, ?_, ?_, ?_⟩
  · rw [BuildConfig_stages, hseedA]
    simp only
    rw [configWithSeed_spec, hA]
  · rw [BuildConfig_stages, hseedB]
    simp only
    rw [configWithSeed_spec, hBnet]
    simp only
    rw [hB]
  · intro h
    simp at h
  · exact ⟨flagsA.Network ++ " (use mainnet or testnet)".toList, by simp⟩
  · exact ⟨flagsB.Version, rfl⟩
  · rintro ⟨t, ht⟩
    simp at ht
  · rintro ⟨t, ht⟩
    simp at ht
  · exact ⟨"invalid network: ".toList, " (use mainnet or testnet)".toList, rfl⟩
  · exact ⟨"invalid version: ".toList, [], by simp⟩

theorem BuildConfig_distinct_errors_witness :
    BuildConfig id [] ⟨false, sampleLine, "moon".toList, [], -1, false⟩ =
      .error (.errorf "invalid network: moon (use mainnet or testnet)".toList) ∧
    BuildConfig id [] ⟨false, sampleLine, [], "v9".toList, -1, false⟩ =
      .error (.errorf "invalid version: v9".toList) ∧
    ∃ msgA msgB,
      BuildConfig id [] ⟨false, sampleLine, "moon".toList, [], -1, false⟩ =
        .error (.errorf msgA) ∧
      BuildConfig id [] ⟨false, sampleLine, [], "v9".toList, -1, false⟩ =
        .error (.errorf msgB) ∧
      msgA ≠ msgB ∧
      "invalid network: ".toList <+: msgA ∧ "invalid version: ".toList <+: msgB ∧
      ¬ "invalid version: ".toList <+: msgA ∧ ¬ "invalid network: ".toList <+: msgB ∧
      "moon".toList <:+: msgA ∧ "v9".toList <:+: msgB :=
  ⟨rfl, rfl,
    BuildConfig_distinct_errors id [] ⟨false, sampleLine, "moon".toList, [], -1, false⟩
      ⟨false, sampleLine, [], "v9".toList, -1, false⟩ (Fields sampleLine) (Fields sampleLine)
      MainnetGlobalID "Mainnet".toList rfl rfl (by decide) (by decide) (by decide)⟩

/-- C20: when the seed prompt is followed by a network line, a version line
and a white-space-only subwallet line, `CollectWalletConfig` returns a
configuration whose subwallet id is 0 if its version is a V5 variant and
698983191 otherwise; the version is a V5 variant exactly when the trimmed
version line is `5` or `6`, and an unrecognised version line gives V4R2 with
698983191. -/
theorem CollectWalletConfig_subwallet_default (caseTable : Char → Char)
    (newSeed : List GoString) (scanner : Scanner) (seed : List GoString)
    (netLine verLine subLine : GoString) (rest : Scanner)
    (hseed : promptForSeed caseTable newSeed scanner =
      (.ok seed, netLine :: verLine :: subLine :: rest))
    (hblank : TrimSpace subLine = []) :
    ∃ cfg, CollectWalletConfig caseTable newSeed scanner = .ok cfg ∧
      cfg.SubwalletID = (if cfg.Version.isV5 then 0 else 698983191) ∧
      (cfg.SubwalletID = 0 ↔
        ∃ n, cfg.Version = .ConfigV5R1Beta n ∨ cfg.Version = .ConfigV5R1Final n) ∧
      (cfg.Version.isV5 = true ↔
        TrimSpace verLine = "5".toList ∨ TrimSpace verLine = "6".toList) ∧
      (TrimSpace verLine ∉ ["1".toList, "2".toList, "3".toList, "4".toList, "5".toList,
          "6".toList] → cfg.Version = .V4R2 ∧ cfg.SubwalletID = 698983191) := by
  obtain ⟨networkID, networkName, hn⟩ := promptForNetwork_cons netLine (verLine :: subLine :: rest)
  obtain ⟨v, versionName, choice, hv, hv5, hiff, hfall⟩ :=
    promptForVersion_cons verLine (subLine :: rest) networkID
  have hsub := promptForSubwallet_blank subLine rest v.isV5 hblank
  have hcfg : CollectWalletConfig caseTable newSeed scanner =
      .ok ⟨seed, networkID, networkName, v, versionName,
        if v.isV5 then 0 else 698983191⟩ := by
    simp only [CollectWalletConfig, hseed, hn, hv]
    rw [← hv5, hsub]
  refine ⟨_, hcfg, rfl, ?_, hiff, ?_⟩
  · cases v <;> simp [VersionConfig.isV5]
  · intro hno
    have := hfall hno
    subst this
    exact ⟨rfl, rfl⟩

theorem CollectWalletConfig_subwallet_default_witness :
    promptForSeed id sampleWords ["y".toList, "2".toList, " 6".toList, [], "x".toList] =
      (.ok sampleWords, ["2".toList, " 6".toList, [], "x".toList]) ∧
    CollectWalletConfig id sampleWords ["y".toList, "2".toList, " 6".toList, [], "x".toList] =
      .ok ⟨sampleWords, TestnetGlobalID, "Testnet".toList, .ConfigV5R1Final TestnetGlobalID,
        "V5R1 Final".toList, 0⟩ ∧
    ∃ cfg, CollectWalletConfig id sampleWords
        ["y".toList, "2".toList, " 6".toList, [], "x".toList] = .ok cfg ∧
      cfg.SubwalletID = (if cfg.Version.isV5 then 0 else 698983191) ∧
      (cfg.SubwalletID = 0 ↔
        ∃ n, cfg.Version = .ConfigV5R1Beta n ∨ cfg.Version = .ConfigV5R1Final n) ∧
      (cfg.Version.isV5 = true ↔
        TrimSpace " 6".toList = "5".toList ∨ TrimSpace " 6".toList = "6".toList) ∧
      (TrimSpace " 6".toList ∉ ["1".toList, "2".toList, "3".toList, "4".toList, "5".toList,
          "6".toList] → cfg.Version = .V4R2 ∧ cfg.SubwalletID = 698983191) :=
  ⟨rfl, rfl,
    CollectWalletConfig_subwallet_default id sampleWords
      ["y".toList, "2".toList, " 6".toList, [], "x".toList] sampleWords "2".toList " 6".toList []
      ["x".toList] rfl (by decide)⟩

/-! ## Lemmas on the top-level program -/

/-- The loop of `main.go` against the loop of `internal/ui`. -/
theorem Main_readLines_eq (caseTable : Char → Char) : ∀ (scanner : Scanner) (st : ReaderState),
    Main.readLines caseTable scanner st.allWords st.emptyLineCount =
      match readLoop caseTable scanner st with
      | (.ret err, rest) => (.error err, rest)
      | (.brk _ st', rest) =>
        (.ok (if st'.allWords.length > 24 then st'.allWords.take 24 else st'.allWords), rest) := by
  intro scanner
  induction scanner with
  | nil =>
    intro st
    simp only [Main.readLines, readLoop, scanFailed]
    by_cases h : st.allWords.length > 0
    · simp only [h, if_true]; rfl
    · simp only [h, if_false]
  | cons line rest ih =>
    intro st
    simp only [Main.readLines, readLoop, loopBody, appendWords, replaceSeparators]
    by_cases hb : TrimSpace line = []
    · simp only [hb, if_true]
      by_cases h1 : st.allWords.length > 0 ∧ st.emptyLineCount + 1 ≥ 2
      · simp only [h1, and_self, if_true]; rfl
      · simp only [h1, if_false]
        by_cases h2 : st.allWords.length ≥ 24 ∧ st.emptyLineCount + 1 ≥ 1
        · simp only [h2, and_self, if_true]; rfl
        · simp only [h2, if_false]
          exact ih ⟨st.allWords, st.emptyLineCount + 1⟩
    · simp only [hb, if_false]
      split_ifs with h24
      · rfl
      · exact ih ⟨_, 0⟩

/-- The three parts of `buildConfigFromFlags` are the parts of `BuildConfig`. -/
theorem Main_buildConfig_stages (caseTable : Char → Char) (newSeed : List GoString)
    (flags : Main.CLIFlags) :
    Main.buildConfigFromFlags caseTable newSeed flags =
      match resolveSeed newSeed (flagsOfMain flags) with
      | .error err => .error err
      | .ok seed =>
        match resolveNetwork caseTable (flagsOfMain flags) with
        | .error err => .error err
        | .ok (networkID, networkName) =>
          match resolveVersion caseTable (flagsOfMain flags) networkID with
          | .error err => .error err
          | .ok (walletVersion, versionName, v5) =>
            .ok ⟨seed, networkID, networkName, walletVersion, versionName,
              resolveSubwallet (flagsOfMain flags) v5⟩ := by
  rfl

theorem Main_buildConfig_eq (caseTable : Char → Char) (newSeed : List GoString)
    (flags : Main.CLIFlags) :
    (Main.buildConfigFromFlags caseTable newSeed flags).map configOfMain =
      BuildConfig caseTable newSeed (flagsOfMain flags) := by
  rw [Main_buildConfig_stages, BuildConfig_stages]
  cases resolveSeed newSeed (flagsOfMain flags) with
  | error e => rfl
  | ok seed =>
    simp only [configWithSeed]
    cases resolveNetwork caseTable (flagsOfMain flags) with
    | error e => rfl
    | ok p =>
      obtain ⟨networkID, networkName⟩ := p
      simp only
      cases resolveVersion caseTable (flagsOfMain flags) networkID with
      | error e => rfl
      | ok q =>
        obtain ⟨v, vn, v5⟩ := q
        rfl

theorem Main_deriveKeys_eq (lib : CryptoLib) (seed : List GoString) :
    (Main.deriveKeysFromSeed lib seed).map (Except.map keyPairOfMain) =
      DeriveKeysFromSeed lib seed := by
  simp only [Main.deriveKeysFromSeed, DeriveKeysFromSeed]
  cases lib.ed25519NewKeyFromSeed _ with
  | none => rfl
  | some k =>
    simp only
    split_ifs <;> rfl

/-! ## Lemmas on read failures, mode selection and canonical lines -/

/-- With no token on any line the loop ends in the read failure. -/
theorem readLoop_no_tokens (caseTable : Char → Char) : ∀ (lines : Scanner) (n : Nat),
    tokensOf caseTable lines = [] →
    readLoop caseTable lines ⟨[], n⟩ =
      (.ret (.errorf "failed to read seed phrase".toList), []) := by
  intro lines
  induction lines with
  | nil => intro n _; rfl
  | cons line rest ih =>
    intro n h
    have hl : lineTokens caseTable line = [] ∧ tokensOf caseTable rest = [] := by
      simpa [tokensOf] using h
    simp only [readLoop, loopBody_eq, hl.1, List.append_nil, List.length_nil]
    by_cases hb : TrimSpace line = []
    · simp only [hb, if_true]
      rw [if_neg (by omega), if_neg (by omega)]
      exact ih _ hl.2
    · simp only [hb, if_false]
      rw [if_neg (by omega)]
      exact ih _ hl.2

/-- `IsCLIMode` looks at five of the six flags. -/
theorem IsCLIMode_iff (f : Flags) :
    IsCLIMode f = true ↔
      (f.Generate = true ∨ f.Seed ≠ [] ∨ f.Network ≠ [] ∨ f.Version ≠ [] ∨ 0 ≤ f.Subwallet) := by
  simp [IsCLIMode, or_assoc]

/-- The reader stops on the line that brings the tokens to 24 or more. -/
theorem readMultiLineSeed_stops_at_24 (caseTable : Char → Char) (pre : List GoString)
    (line : GoString) (post : Scanner) (st : ReaderState)
    (hrun : stateAfter caseTable pre = some st)
    (h24 : 24 ≤ (tokensOf caseTable (pre ++ [line])).length) :
    readMultiLineSeed caseTable (pre ++ line :: post) =
      (.ok ((tokensOf caseTable (pre ++ [line])).take 24), post) := by
  obtain ⟨i1, i2, _⟩ := stateAfter_inv caseTable pre st hrun
  have hloop := readLoop_runFrom caseTable pre ⟨[], 0⟩ st (line :: post) hrun
  rw [tokensOf_snoc] at h24 ⊢
  have hb : ¬ TrimSpace line = [] := by
    intro hb
    rw [lineTokens_blank caseTable line hb, List.append_nil, ← i1] at h24
    omega
  have hstep : readLoop caseTable (line :: post) st =
      (.brk .reached24 ⟨st.allWords ++ lineTokens caseTable line, 0⟩, post) := by
    simp only [readLoop, loopBody_eq, hb, if_false]
    rw [if_pos (by rw [i1]; exact h24)]
  unfold readMultiLineSeed
  rw [hloop, hstep]
  simp only [i1]
  split_ifs with h
  · rfl
  · have : (tokensOf caseTable pre ++ lineTokens caseTable line).length = 24 := by omega
    rw [← this, List.take_length]

/-- Replacing white space by white space does not change the fields. -/
theorem fieldsFrom_map_space (g : Char → Char) (s : GoString)
    (hg : ∀ c ∈ s, (isSpace c = true → isSpace (g c) = true) ∧ (isSpace c = false → g c = c)) :
    ∀ cur, fieldsFrom (s.map g) cur = fieldsFrom s cur := by
  induction s with
  | nil => intro cur; rfl
  | cons c cs ih =>
    intro cur
    have hc := hg c (by simp)
    have ih' := ih (fun d hd => hg d (by simp [hd]))
    simp only [List.map_cons, fieldsFrom]
    by_cases hs : isSpace c = true
    · simp only [hs, hc.1 hs, if_true, ih']
    · have hs' : isSpace c = false := by simpa using hs
      rw [hc.2 hs']
      simp only [hs', ih']

/-- A line without `,`, `;`, `|`, `.` has the fields of the raw line as tokens,
lower-cased. -/
theorem lineTokens_no_separator (caseTable : Char → Char) (line : GoString)
    (hsep : ∀ c ∈ line, c ≠ ',' ∧ c ≠ ';' ∧ c ≠ '|' ∧ c ≠ '.') :
    lineTokens caseTable line = (Fields line).map (ToLower caseTable) := by
  unfold lineTokens Fields
  rw [fieldsFrom_map_space]
  intro c hc
  obtain ⟨h1, h2, h3, h4⟩ := hsep c hc
  by_cases ht : c = '\t'
  · subst ht
    exact ⟨fun _ => by decide, fun h => absurd h (by decide)⟩
  · have : isSeparator c = false := by
      simp [isSeparator, h1, h2, h3, h4, ht]
    simp only [this, Bool.false_eq_true, if_false]
    exact ⟨fun h => h, fun _ => trivial⟩

/-! ## Properties of assembly, read failures, mode selection and the two entry points -/

/-- C21: for every configuration, key derivation returns a key pair (no error,
no panic), and `Generate` returns the zero `Info` with the error
`failed to create wallet address: %w` wrapping the failure of the address
derivation exactly when that derivation fails on the derived public key, the
version and the subwallet id; otherwise it returns, without error, the `Info`
made of the configuration, the derived key pair and the derived address. -/
theorem Generate_spec {Address : Type} (lib : CryptoLib)
    (AddressFromPubKey : Bytes → VersionConfig → Nat → Except GoError Address)
    (config : Config) :
    ∃ keys, DeriveKeysFromSeed lib config.Seed = some (.ok keys) ∧
      Generate lib AddressFromPubKey config =
        some (match AddressFromPubKey keys.Public config.Version config.SubwalletID with
          | .error err =>
            (none, some (.errorfWrap "failed to create wallet address: ".toList err))
          | .ok addr => (some ⟨config, keys, addr⟩, none)) := by
  obtain ⟨key, _, _, hd⟩ := DeriveKeysFromSeed_ok lib config.Seed
  refine ⟨⟨key, key.drop 32⟩, hd, ?_⟩
  simp only [Generate, hd]
  cases AddressFromPubKey (List.drop 32 key) config.Version config.SubwalletID <;> rfl

/-- C22: `CollectWalletConfig` fails with a read error when the input ends
before the answer to the first question (`failed to read input`), before any
seed token (`failed to read seed phrase`), before the network line, before the
version line or before the subwallet line (`failed to read network choice`,
`... version choice`, `... subwallet ID`). -/
theorem CollectWalletConfig_read_failures (caseTable : Char → Char) (newSeed : List GoString) :
    CollectWalletConfig caseTable newSeed [] =
      .error (.errorf "failed to read input".toList) ∧
    (∀ answer lines, ToLower caseTable (TrimSpace answer) ≠ "y".toList →
      tokensOf caseTable lines = [] →
      CollectWalletConfig caseTable newSeed (answer :: lines) =
        .error (.errorf "failed to read seed phrase".toList)) ∧
    (∀ scanner seed, promptForSeed caseTable newSeed scanner = (.ok seed, []) →
      CollectWalletConfig caseTable newSeed scanner =
        .error (.errorf "failed to read network choice".toList)) ∧
    (∀ scanner seed netLine, promptForSeed caseTable newSeed scanner = (.ok seed, [netLine]) →
      CollectWalletConfig caseTable newSeed scanner =
        .error (.errorf "failed to read version choice".toList)) ∧
    (∀ scanner seed netLine verLine,
      promptForSeed caseTable newSeed scanner = (.ok seed, [netLine, verLine]) →
      CollectWalletConfig caseTable newSeed scanner =
        .error (.errorf "failed to read subwallet ID".toList)) := by
  refine ⟨rfl, ?_, ?_, ?_, ?_⟩
  · intro answer lines hans htok
    have hread : readMultiLineSeed caseTable lines =
        (.error (.errorf "failed to read seed phrase".toList), []) := by
      unfold readMultiLineSeed
      rw [readLoop_no_tokens caseTable lines 0 htok]
    unfold CollectWalletConfig
    rw [promptForSeed_user caseTable newSeed answer lines hans, hread]
  · intro scanner seed hseed
    unfold CollectWalletConfig
    rw [hseed]
    rfl
  · intro scanner seed netLine hseed
    obtain ⟨networkID, networkName, hn⟩ := promptForNetwork_cons netLine []
    unfold CollectWalletConfig
    rw [hseed]
    simp only [hn]
    rfl
  · intro scanner seed netLine verLine hseed
    obtain ⟨networkID, networkName, hn⟩ := promptForNetwork_cons netLine [verLine]
    obtain ⟨v, versionName, choice, hv, _⟩ := promptForVersion_cons verLine [] networkID
    unfold CollectWalletConfig
    rw [hseed]
    simp only [hn, hv]
    rfl

theorem CollectWalletConfig_read_failures_witness :
    CollectWalletConfig id [] ["n".toList, [], " , ".toList, []] =
      .error (.errorf "failed to read seed phrase".toList) ∧
    CollectWalletConfig id sampleWords ["y".toList, "1".toList] =
      .error (.errorf "failed to read version choice".toList) :=
  ⟨(CollectWalletConfig_read_failures id []).2.1 "n".toList [[], " , ".toList, []]
      (by decide) (by decide),
    (CollectWalletConfig_read_failures id sampleWords).2.2.2.1 ["y".toList, "1".toList]
      sampleWords "1".toList rfl⟩

/-- C23 (failing input): with `--simple` as the only flag given, `IsCLIMode`
returns false. -/
theorem IsCLIMode_simple_only :
    IsCLIMode ⟨false, [], [], [], -1, true⟩ = false ∧
    (⟨false, [], [], [], -1, true⟩ : Flags).SimpleMode ≠ false :=
  ⟨rfl, by decide⟩

/-- C24: the functions of `main.go` agree with those of the internal packages:
`buildConfigFromFlags` returns the same configuration or error as
`cli.BuildConfig`, `readMultiLineSeed` the same words or error and the same
unread lines as `ui.readMultiLineSeed`, and `deriveKeysFromSeed` the same key
pair as `wallet.DeriveKeysFromSeed`. -/
theorem main_agrees_with_packages (caseTable : Char → Char) (lib : CryptoLib)
    (newSeed : List GoString) :
    (∀ flags, (Main.buildConfigFromFlags caseTable newSeed flags).map configOfMain =
      BuildConfig caseTable newSeed (flagsOfMain flags)) ∧
    (∀ scanner, Main.readMultiLineSeed caseTable scanner = readMultiLineSeed caseTable scanner) ∧
    (∀ seed, (Main.deriveKeysFromSeed lib seed).map (Except.map keyPairOfMain) =
      DeriveKeysFromSeed lib seed) := by
  refine ⟨Main_buildConfig_eq caseTable newSeed, ?_, Main_deriveKeys_eq lib⟩
  intro scanner
  unfold Main.readMultiLineSeed readMultiLineSeed
  refine (Main_readLines_eq caseTable scanner ⟨[], 0⟩).trans ?_
  cases readLoop caseTable scanner ⟨[], 0⟩ with
  | mk e rest => cases e <;> rfl

/-- C25: while `readMultiLineSeed` is reading it holds fewer than 24 tokens; it
never leaves its loop by the branch for an empty line after 24 words; it stops
on the first line that brings the tokens to 24 or more and leaves every later
line unread, so that the seed prompt hands those lines on to the network
prompt. -/
theorem reader_stops_at_24 (caseTable : Char → Char) :
    (∀ hist st, stateAfter caseTable hist = some st → st.allWords.length < 24) ∧
    (∀ lines st, (readLoop caseTable lines ⟨[], 0⟩).1 ≠ .brk .emptyLineAfter24 st) ∧
    (∀ pre line post st, stateAfter caseTable pre = some st →
      24 ≤ (tokensOf caseTable (pre ++ [line])).length →
      readMultiLineSeed caseTable (pre ++ line :: post) =
        (.ok ((tokensOf caseTable (pre ++ [line])).take 24), post)) ∧
    (∀ newSeed answer pre line post st,
      ToLower caseTable (TrimSpace answer) ≠ "y".toList →
      stateAfter caseTable pre = some st →
      24 ≤ (tokensOf caseTable (pre ++ [line])).length →
      promptForSeed caseTable newSeed (answer :: (pre ++ line :: post)) =
        (.ok ((tokensOf caseTable (pre ++ [line])).take 24), post)) := by
  refine ⟨?_, ?_, ?_, ?_⟩
  · intro hist st h
    exact (stateAfter_inv caseTable hist st h).2.1
  · intro lines st h
    rcases readLoop_exit_cases caseTable lines ⟨[], 0⟩ (by simp) _ st h with h1 | h1
    · exact absurd h1.1 (by decide)
    · rcases h1.1 with h2 | h2 <;> exact absurd h2 (by decide)
  · intro pre line post st hrun h24
    exact readMultiLineSeed_stops_at_24 caseTable pre line post st hrun h24
  · intro newSeed answer pre line post st hans hrun h24
    rw [promptForSeed_user caseTable newSeed answer _ hans,
      readMultiLineSeed_stops_at_24 caseTable pre line post st hrun h24]
    simp only
    rw [if_neg]
    rw [List.length_take]
    omega

theorem reader_stops_at_24_witness :
    stateAfter id ["a b".toList] = some ⟨["a".toList, "b".toList], 0⟩ ∧
    readMultiLineSeed id (["a b".toList] ++ "c d e f g h i j k l m n o p q r s t u v w x y".toList ::
        [[], "2".toList]) =
      (.ok ((tokensOf id (["a b".toList] ++
        ["c d e f g h i j k l m n o p q r s t u v w x y".toList])).take 24), [[], "2".toList]) ∧
    CollectWalletConfig id [] ["n".toList, sampleLine, [], "2".toList, [], []] =
      .ok ⟨sampleWords, MainnetGlobalID, "Mainnet".toList, .V3R2, "V3R2".toList, 698983191⟩ :=
  ⟨rfl, (reader_stops_at_24 id).2.2.1 ["a b".toList]
      "c d e f g h i j k l m n o p q r s t u v w x y".toList [[], "2".toList]
      ⟨["a".toList, "b".toList], 0⟩ rfl (by decide), rfl⟩

/-- C26: on a single line of exactly 24 lower-case words separated by white
space, without `,`, `;`, `|`, `.`, direct mode and the interactive reader
resolve the same seed, the words of the line in order, and so derive the same
key pair. -/
theorem direct_and_interactive_agree (caseTable : Char → Char) (lib : CryptoLib)
    (newSeed : List GoString) (line network version : GoString) (subwallet : Int)
    (simple : Bool)
    (h24 : (Fields line).length = 24)
    (hlower : ∀ w ∈ Fields line, ToLower caseTable w = w)
    (hsep : ∀ c ∈ line, c ≠ ',' ∧ c ≠ ';' ∧ c ≠ '|' ∧ c ≠ '.') :
    resolveSeed newSeed ⟨false, line, network, version, subwallet, simple⟩ =
      .ok (Fields line) ∧
    (readMultiLineSeed caseTable [line]).1 = .ok (Fields line) ∧
    (∀ cfg seed,
      BuildConfig caseTable newSeed ⟨false, line, network, version, subwallet, simple⟩ =
        .ok cfg →
      (readMultiLineSeed caseTable [line]).1 = .ok seed →
      cfg.Seed = seed ∧ DeriveKeysFromSeed lib cfg.Seed = DeriveKeysFromSeed lib seed) := by
  have htok : lineTokens caseTable line = Fields line := by
    rw [lineTokens_no_separator caseTable line hsep]
    conv_rhs => rw [← List.map_id (Fields line)]
    exact List.map_congr_left (fun w hw => hlower w hw)
  have hread : (readMultiLineSeed caseTable [line]).1 = .ok (Fields line) := by
    rw [readMultiLineSeed_single caseTable line (by rw [htok, h24]), htok]
  have hne : line ≠ [] := by
    intro h; rw [h] at h24; simp [Fields, fieldsFrom] at h24
  refine ⟨?_, hread, ?_⟩
  · simp [resolveSeed, hne, h24]
  · intro cfg seed hcfg hseed
    rw [hread] at hseed
    simp only [Except.ok.injEq] at hseed
    obtain ⟨hs, _⟩ := BuildConfig_user_seed caseTable newSeed _ cfg rfl hcfg
    have : cfg.Seed = seed := by rw [hs, ← hseed]
    exact ⟨this, by rw [this]⟩

theorem direct_and_interactive_agree_witness :
    (Fields sampleLine).length = 24 ∧
    resolveSeed [] ⟨false, sampleLine, [], [], -1, false⟩ = .ok (Fields sampleLine) ∧
    (readMultiLineSeed id [sampleLine]).1 = .ok (Fields sampleLine) :=
  ⟨by decide,
    (direct_and_interactive_agree id lengthOnlyLib [] sampleLine [] [] (-1) false (by decide)
      (by decide) (by decide)).1,
    (direct_and_interactive_agree id lengthOnlyLib [] sampleLine [] [] (-1) false (by decide)
      (by decide) (by decide)).2.1⟩

end TonWallet
